import Mathlib

/-!
Verification development for the bilibili link-resolution plugin.

The TypeScript sources are modelled by a shallow embedding: JavaScript
strings become `List Char`, JavaScript numbers become `Nat`/`Int` as
appropriate, network and file-system effects become explicit environment
records passed to the modelled functions, and the platform's stable
`Array.prototype.sort` is modelled by a stable insertion sort over the
translated comparator.
-/

namespace Bili

/-- JavaScript strings are modelled as lists of characters. -/
abbrev JSStr := List Char

/-- ASCII lower-casing of one character, as performed by `toLowerCase` and by
case-insensitive regex matching on the ASCII letters used in the patterns. -/
def lowerChar (c : Char) : Char :=
  if 'A' ≤ c ∧ c ≤ 'Z' then Char.ofNat (c.toNat + 32) else c

/-- Membership in the regex character class `[0-9A-Za-z]`. -/
def isAlnumChar (c : Char) : Bool :=
  ('0' ≤ c ∧ c ≤ '9') ∨ ('A' ≤ c ∧ c ≤ 'Z') ∨ ('a' ≤ c ∧ c ≤ 'z')

/-- Membership in the regex word class `\w` = `[0-9A-Za-z_]`. -/
def isWordChar (c : Char) : Bool :=
  isAlnumChar c ∨ c = '_'

/-- Membership in the regex digit class `\d`. -/
def isDigitChar (c : Char) : Bool :=
  '0' ≤ c ∧ c ≤ '9'

/-! ## DASH manifest data model (src/unnamed/part_004, `DashVideoStream`,
`DashAudioStream`, `DashPlayInfo`) -/

/-- `backupUrl: string | string[]`. -/
inductive BackupUrl where
  | str (s : JSStr)
  | arr (l : List JSStr)
deriving DecidableEq

/-- DASH video stream descriptor. -/
structure DashVideoStream where
  id : Int
  backupUrl : BackupUrl
  bandwidth : Int
  codecs : JSStr
  width : Int
  height : Int
  frameRate : JSStr
deriving DecidableEq

/-- DASH audio stream descriptor. -/
structure DashAudioStream where
  id : Int
  backupUrl : BackupUrl
  bandwidth : Int
  codecs : JSStr
deriving DecidableEq

/-- `dolby?: ` field of `DashPlayInfo`. -/
structure DolbyInfo where
  audio : Option (List DashAudioStream)
deriving DecidableEq

/-- `flac?: ` field of `DashPlayInfo`. -/
structure FlacInfo where
  audio : Option DashAudioStream
deriving DecidableEq

/-- DASH manifest as returned by `fetchVideoDashInfo`. -/
structure DashPlayInfo where
  video : List DashVideoStream
  audio : List DashAudioStream
  duration : Int
  dolby : Option DolbyInfo
  flac : Option FlacInfo
deriving DecidableEq

/-- The `VideoQuality` union type of the configuration
(`'auto' | '4k' | '1080p60' | '1080p' | '720p' | '480p'`). -/
inductive VideoQuality where
  | auto | q4k | q1080p60 | q1080p | q720p | q480p
deriving DecidableEq

/-- `VIDEO_QUALITY_MAP`. The source map has no `'auto'` key and is never
looked up with `'auto'` (that value is handled before the lookup); the
`auto` case below is an arbitrary placeholder. The map's `'360p'` entry is
unreachable because the configuration type excludes that value. -/
def videoQualityMap : VideoQuality → Int
  | .auto => 0
  | .q4k => 120
  | .q1080p60 => 116
  | .q1080p => 80
  | .q720p => 64
  | .q480p => 32

/-! ## Stable sort

`Array.prototype.sort` is stable, and every comparator below induces a total
preorder (`le a b := cmp a b ≤ 0`) on the lists it is applied to, so the
sorted result is the unique stable `le`-sorted permutation. We realise it
with a stable insertion sort. -/

/-- Stable insertion of `x` (an element earlier in the original list than
everything in the already-sorted tail) into a sorted list. -/
def insertLe (le : α → α → Bool) (x : α) : List α → List α
  | [] => [x]
  | y :: ys => if le x y then x :: y :: ys else y :: insertLe le x ys

/-- Stable insertion sort with respect to a Boolean comparison. -/
def sortLe (le : α → α → Bool) (l : List α) : List α :=
  l.foldr (insertLe le) []

/-- First minimal element with respect to `le`; equals the head of the
stable sort (proved below). -/
def selBest (le : α → α → Bool) : List α → Option α
  | [] => none
  | x :: xs =>
    match selBest le xs with
    | none => some x
    | some b => if le x b then some x else some b

/-- Comparator `(a, b) => b.id - a.id` (descending by quality id). -/
def videoDescLe (a b : DashVideoStream) : Bool :=
  b.id - a.id ≤ 0

/-- Comparator `(a, b) => a.id - b.id` (ascending by quality id). -/
def videoAscLe (a b : DashVideoStream) : Bool :=
  a.id - b.id ≤ 0

/-- The audio comparator of `getHighestQualityStreams`:
FLAC (id 30251) first, then Dolby (id 30250), then descending bandwidth. -/
def audioCmp (a b : DashAudioStream) : Int :=
  if a.id = 30251 then -1
  else if b.id = 30251 then 1
  else if a.id = 30250 then -1
  else if b.id = 30250 then 1
  else b.bandwidth - a.bandwidth

/-- `le` form of `audioCmp`: `a` may precede `b` in the sorted order. -/
def audioLe (a b : DashAudioStream) : Bool :=
  audioCmp a b ≤ 0

/-- Video-stream choice of `getHighestQualityStreams`: auto mode takes the
head of the id-descending sort; explicit mode looks for an exact match of
the target id, then the id-descending head of the candidates with id at
most the target, then the head of the id-ascending sort. -/
def selectVideoStream (configQuality : VideoQuality) (videos : List DashVideoStream) :
    Option DashVideoStream :=
  if videos = [] then none
  else if configQuality = .auto then (sortLe videoDescLe videos).head?
  else
    match videos.find? (fun v => v.id = videoQualityMap configQuality) with
    | some v => some v
    | none =>
      match (sortLe videoDescLe
          (videos.filter (fun v => v.id ≤ videoQualityMap configQuality))).head? with
      | some v => some v
      | none => (sortLe videoAscLe videos).head?

/-- The audio candidate pool: regular streams, then Dolby streams, then the
single FLAC stream, in the order the source pushes them. -/
def audioPool (dashInfo : DashPlayInfo) : List DashAudioStream :=
  (dashInfo.audio
      ++ (match dashInfo.dolby with
          | some di => match di.audio with | some l => l | none => []
          | none => []))
    ++ (match dashInfo.flac with
        | some fi => match fi.audio with | some a => [a] | none => []
        | none => [])

/-- Result record of `getHighestQualityStreams`. -/
structure SelectedStreams where
  video : Option DashVideoStream
  audio : Option DashAudioStream
deriving DecidableEq

/-- `getHighestQualityStreams` (src/unnamed/part_004).  The configuration's
quality preference (`pluginState.config.videoQuality || 'auto'`) is passed
explicitly. -/
def getHighestQualityStreams (configQuality : VideoQuality) (dashInfo : DashPlayInfo) :
    SelectedStreams :=
  let highestVideo := selectVideoStream configQuality dashInfo.video
  let pool := audioPool dashInfo
  let highestAudio := if pool = [] then none else (sortLe audioLe pool).head?
  ⟨highestVideo, highestAudio⟩

/-- `extractStreamUrl`: an array takes its first element, a string is
returned as is, an empty array yields the empty string. -/
def extractStreamUrl : BackupUrl → JSStr
  | .arr (u :: _) => u
  | .arr [] => []
  | .str s => s

/-! ## Credential encryption (src/unnamed/part_004, `encryptString` /
`decryptString`)

The AES-256-GCM cipher of the Node `crypto` module is a platform primitive;
it is abstracted as a `Cipher` record producing the initialisation vector,
the authentication tag and the ciphertext as byte lists.  The repository's
own logic — the `ENC:` marker, hex framing, colon-separated layout and its
parsing — is modelled concretely. -/

/-- Abstract authenticated cipher.  `encrypt` yields (iv, authTag,
ciphertext); `decrypt` yields `none` when authentication fails (the Node
call throws in that case). -/
structure Cipher where
  encrypt : JSStr → List Nat × List Nat × List Nat
  decrypt : List Nat → List Nat → List Nat → Option JSStr

/-- Lower-case hex digit for a value below 16. -/
def hexDigitChar : Nat → Char
  | 0 => '0' | 1 => '1' | 2 => '2' | 3 => '3' | 4 => '4'
  | 5 => '5' | 6 => '6' | 7 => '7' | 8 => '8' | 9 => '9'
  | 10 => 'a' | 11 => 'b' | 12 => 'c' | 13 => 'd' | 14 => 'e' | 15 => 'f'
  | _ + 16 => '0'

/-- Two-digit hex rendering of one byte, as in `Buffer.toString` with the
hex encoding. -/
def byteToHex (b : Nat) : JSStr :=
  [hexDigitChar (b / 16), hexDigitChar (b % 16)]

/-- Hex rendering of a byte list. -/
def hexEncode (bs : List Nat) : JSStr :=
  bs.foldr (fun b acc => byteToHex b ++ acc) []

/-- Value of one hex digit; `none` on a non-hex character. -/
def hexDigitVal (c : Char) : Option Nat :=
  if '0' ≤ c ∧ c ≤ '9' then some (c.toNat - 48)
  else if 'a' ≤ c ∧ c ≤ 'f' then some (c.toNat - 87)
  else if 'A' ≤ c ∧ c ≤ 'F' then some (c.toNat - 55)
  else none

/-- Hex parsing as performed by `Buffer.from` with the hex encoding:
digit pairs are consumed until the first invalid or incomplete pair. -/
def hexDecode : JSStr → List Nat
  | c1 :: c2 :: rest =>
    match hexDigitVal c1, hexDigitVal c2 with
    | some h, some l => (16 * h + l) :: hexDecode rest
    | _, _ => []
  | _ => []

/-- `String.prototype.split` with a one-character separator. -/
def splitOnChar (sep : Char) : JSStr → List JSStr
  | [] => [[]]
  | c :: cs =>
    match splitOnChar sep cs with
    | [] => [[]]
    | h :: t => if c = sep then [] :: h :: t else (c :: h) :: t

/-- The `ENCRYPTED_PREFIX` marker `ENC:`. -/
def encMarker : JSStr := ['E', 'N', 'C', ':']

/-- `encryptString`: an empty input is returned unchanged, otherwise the
output is `ENC:` followed by the hex of the iv, the auth tag and the
ciphertext, colon-separated.  (The source's catch-all degrade-to-plaintext
branch is unreachable for the abstract cipher, which does not throw.) -/
def encryptString (C : Cipher) (plaintext : JSStr) : JSStr :=
  if plaintext = [] then plaintext
  else
    match C.encrypt plaintext with
    | (iv, authTag, encrypted) =>
      encMarker ++ hexEncode iv ++ ':' :: hexEncode authTag ++ ':' :: hexEncode encrypted

/-- `decryptString`: empty or unmarked input is returned unchanged; a
marked input is split on `:` into exactly three hex parts and decrypted,
any failure (wrong part count or authentication error) returning the input
unchanged via the catch block. -/
def decryptString (C : Cipher) (ciphertext : JSStr) : JSStr :=
  if ciphertext = [] then ciphertext
  else if ciphertext.take 4 ≠ encMarker then ciphertext
  else
    match splitOnChar ':' (ciphertext.drop 4) with
    | [ivh, tagh, cth] =>
      match C.decrypt (hexDecode ivh) (hexDecode tagh) (hexDecode cth) with
      | some s => s
      | none => ciphertext
    | _ => ciphertext

/-- `isEncrypted`. -/
def isEncrypted (value : JSStr) : Bool :=
  value.take 4 = encMarker

/-! ## Credential store and configuration sanitising
(src/src/core/state.ts alias src/unnamed/part_001) -/

/-- `BilibiliCredential`. -/
structure BilibiliCredential where
  sessdata : JSStr
  bili_jct : JSStr
  dedeuserid : JSStr
  refresh_token : Option JSStr
  login_time : Option Nat
deriving DecidableEq

/-- One loosely-typed JSON field of the persisted credential record. -/
inductive RawField where
  | str (s : JSStr)
  | num (n : Nat)
  | other
deriving DecidableEq

/-- The persisted `credential` object as read from disk (fields may be
absent or of the wrong runtime type). -/
structure RawCred where
  sessdata : Option RawField
  bili_jct : Option RawField
  dedeuserid : Option RawField
  refresh_token : Option RawField
  login_time : Option RawField
deriving DecidableEq

/-- Decrypted value of a persisted string field: a non-string or absent
field leaves the sanitiser's empty-string default in place. -/
def rawStrField (C : Cipher) : Option RawField → JSStr
  | some (.str s) => decryptString C s
  | _ => []

/-- Credential part of `sanitizeConfig`: each present string field is
decrypted, and the credential is installed only when the three primary
fields are all non-empty. -/
def sanitizeCredential (C : Cipher) (raw : Option RawCred) : Option BilibiliCredential :=
  match raw with
  | none => none
  | some c =>
    let sessdata := rawStrField C c.sessdata
    let bili_jct := rawStrField C c.bili_jct
    let dedeuserid := rawStrField C c.dedeuserid
    let refresh_token := match c.refresh_token with
      | some (.str s) => some (decryptString C s)
      | _ => none
    let login_time := match c.login_time with
      | some (.num n) => some n
      | _ => none
    if sessdata ≠ [] ∧ bili_jct ≠ [] ∧ dedeuserid ≠ [] then
      some ⟨sessdata, bili_jct, dedeuserid, refresh_token, login_time⟩
    else none

/-- `isLoggedIn` (src/src/services/bilibili-login-service.ts): the stored
credential exists and its three primary fields are truthy. -/
def isLoggedIn (store : Option BilibiliCredential) : Bool :=
  match store with
  | none => false
  | some c => c.sessdata ≠ [] ∧ c.bili_jct ≠ [] ∧ c.dedeuserid ≠ []

/-! ## Parse dedup cache (src/src/core/state.ts alias src/unnamed/part_001)

The `Map<string, number>` from cache key to expiry timestamp is modelled as
an association list in insertion order. -/

/-- Cache from `groupId:bvid` key to expiry time in milliseconds. -/
abbrev ParseCache := List (JSStr × Nat)

/-- `Map.prototype.get`. -/
def cacheGet (cache : ParseCache) (key : JSStr) : Option Nat :=
  (cache.find? (fun e => e.1 = key)).map (fun e => e.2)

/-- `Map.prototype.set`: update in place when present, append otherwise. -/
def cacheSet (cache : ParseCache) (key : JSStr) (v : Nat) : ParseCache :=
  if (cache.find? (fun e => e.1 = key)).isSome then
    cache.map (fun e => if e.1 = key then (key, v) else e)
  else cache ++ [(key, v)]

/-- `Map.prototype.delete`. -/
def cacheDelete (cache : ParseCache) (key : JSStr) : ParseCache :=
  cache.filter (fun e => ¬ e.1 = key)

/-- The cache key `groupId:bvid`. -/
def parseKey (groupId bvid : JSStr) : JSStr :=
  groupId ++ ':' :: bvid

/-- `isInParseCache`: a missing entry, a falsy (zero) expiry, or an expired
entry answers `false` (an expired entry is also deleted); otherwise `true`.
Returns the answer together with the possibly-mutated cache. -/
def isInParseCache (cache : ParseCache) (now : Nat) (groupId bvid : JSStr) :
    Bool × ParseCache :=
  let key := parseKey groupId bvid
  match cacheGet cache key with
  | none => (false, cache)
  | some expireTime =>
    if expireTime = 0 then (false, cache)
    else if now > expireTime then (false, cacheDelete cache key)
    else (true, cache)

/-- `cleanExpiredCache`: drop every entry whose expiry lies strictly in the
past. -/
def cleanExpiredCache (cache : ParseCache) (now : Nat) : ParseCache :=
  cache.filter (fun e => ¬ now > e.2)

/-- Effective TTL in milliseconds: `(this.config.parseCacheTTL || 300) * 1000`
(a zero configured value is falsy and falls back to 300 seconds). -/
def effectiveTTLms (parseCacheTTL : Nat) : Nat :=
  (if parseCacheTTL = 0 then 300 else parseCacheTTL) * 1000

/-- `addToParseCache`: store `now + ttl` under the key, then opportunistically
clean expired entries once the table exceeds 100 entries. -/
def addToParseCache (cache : ParseCache) (now : Nat) (parseCacheTTL : Nat)
    (groupId bvid : JSStr) : ParseCache :=
  let key := parseKey groupId bvid
  let c1 := cacheSet cache key (now + effectiveTTLms parseCacheTTL)
  if c1.length > 100 then cleanExpiredCache c1 now else c1

/-! ## Message handler (src/src/handlers/message-handler.ts, `handleMessage`)

Only the dedup-cache-relevant skeleton is modelled: every network and
rendering effect is an oracle field of `MessageEnv`, and the cache is the
threaded state.  Between the cache check and the forward send the source
performs no cache operation. -/

/-- Oracle for one `handleMessage` run. -/
structure MessageEnv where
  /-- `pluginState.config.enabled`. -/
  enabled : Bool
  /-- The event is a group message (`post_type` and `message_type` checks). -/
  isGroupMessage : Bool
  /-- `String(event.group_id)` when the group id is truthy. -/
  groupId : Option JSStr
  /-- `pluginState.isGroupEnabled`. -/
  groupEnabled : Bool
  /-- `extractLinkFromSegments` produced a link. -/
  miniappLinkFound : Bool
  /-- `containsBilibiliLink(rawMessage)`. -/
  containsLink : Bool
  /-- `extractVideoId` result. -/
  videoId : Option JSStr
  /-- `pluginState.config.parseCacheTTL` (absent when undefined). -/
  parseCacheTTL : Option Nat
  /-- `parseAndFetchVideoInfo` produced a video info record. -/
  videoInfoFound : Bool
  /-- `sendGroupForwardMsg` outcome. -/
  sendForwardSuccess : Bool
  /-- `Date.now()` for this run. -/
  now : Nat

/-- Observable outcome of one `handleMessage` run. -/
structure HandleResult where
  cache : ParseCache
  /-- The run reached the `sendGroupForwardMsg` call. -/
  attemptedForward : Bool
  /-- `sendGroupForwardMsg` returned `true`. -/
  forwardOk : Bool
  /-- The run called `addToParseCache`. -/
  calledAdd : Bool
deriving DecidableEq

/-- Dedup-relevant skeleton of `handleMessage`.  `addToParseCache` is called
only in the `if (success)` branch after the forward send. -/
def handleMessage (env : MessageEnv) (cache : ParseCache) : HandleResult :=
  let noRun : HandleResult := ⟨cache, false, false, false⟩
  if ¬ env.enabled then noRun
  else if ¬ env.isGroupMessage then noRun
  else
    match env.groupId with
    | none => noRun
    | some gid =>
      if ¬ env.groupEnabled then noRun
      else if ¬ (env.miniappLinkFound ∨ env.containsLink) then noRun
      else
        match env.videoId with
        | none => noRun
        | some vid =>
          let cacheTTL := env.parseCacheTTL.getD 300
          let checked :=
            if cacheTTL > 0 then isInParseCache cache env.now gid vid
            else (false, cache)
          if cacheTTL > 0 ∧ checked.1 then ⟨checked.2, false, false, false⟩
          else
            let c1 := checked.2
            if ¬ env.videoInfoFound then ⟨c1, false, false, false⟩
            else
              let ok := env.sendForwardSuccess
              if ok ∧ cacheTTL > 0 then
                ⟨addToParseCache c1 env.now (env.parseCacheTTL.getD 0) gid vid,
                  true, true, true⟩
              else ⟨c1, true, ok, false⟩

/-! ## QR login (src/src/services/bilibili-login-service.ts) -/

/-- `QrCodeLoginStatus`. -/
inductive QrCodeLoginStatus where
  | waiting | scanned | expired | success
deriving DecidableEq

/-- Numeric codes of `QrCodeLoginStatus` (86101, 86090, 86038, 0). -/
def qrStatusCode : QrCodeLoginStatus → Int
  | .waiting => 86101
  | .scanned => 86090
  | .expired => 86038
  | .success => 0

/-- The active QR session record. -/
structure QrSession where
  qrcode_key : JSStr
  url : JSStr
  createTime : Nat
deriving DecidableEq

/-- `QRCODE_TIMEOUT` = 180 seconds in milliseconds. -/
def QRCODE_TIMEOUT : Nat := 180 * 1000

/-- Payload of a successful poll-endpoint response (`data.data`). -/
structure QrPollData where
  url : JSStr
  refresh_token : JSStr
  code : Int
  message : JSStr
deriving DecidableEq

/-- Outcome of one remote fetch with a JSON envelope. -/
inductive RemoteFetch (α : Type) where
  | thrown
  | httpError
  | apiError (code : Int) (message : JSStr)
  | ok (data : α)
deriving DecidableEq

/-- Platform URL machinery (the `URLSearchParams` lookup and
`decodeURIComponent`), abstracted. -/
structure UrlEnv where
  getParam : JSStr → JSStr → Option JSStr
  decode : JSStr → JSStr

/-- `QrCodePollResult`. -/
structure QrPollResultR where
  status : QrCodeLoginStatus
  message : JSStr
  credential : Option BilibiliCredential
deriving DecidableEq

/-- Module state touched by the login service: the active QR session and
the stored credential. -/
structure QrState where
  session : Option QrSession
  storedCredential : Option BilibiliCredential
deriving DecidableEq

/-- `parseCredentialFromUrl`: the query string after the first `?` is
parsed; the three primary cookie fields must all be present and non-empty,
otherwise `none`. -/
def parseCredentialFromUrl (U : UrlEnv) (now : Nat) (url : JSStr) (refreshToken : JSStr) :
    Option BilibiliCredential :=
  if url = [] then none
  else
    match (splitOnChar '?' url).get? 1 with
    | none => none
    | some queryString =>
      let sessdata := (U.getParam queryString ("SESSDATA").data).getD []
      let bili_jct := (U.getParam queryString ("bili_jct").data).getD []
      let dedeuserid := (U.getParam queryString ("DedeUserID").data).getD []
      if sessdata = [] ∨ bili_jct = [] ∨ dedeuserid = [] then none
      else some ⟨U.decode sessdata, bili_jct, dedeuserid, some refreshToken, some now⟩

/-- `pollQrCodeStatus`.  The explicit-argument key falls back to the active
session's key (JS `||`, so an empty argument also falls back); a missing
key, then a timed-out session, are handled before the remote fetch; the
remote outcome is dispatched on the payload's numeric code. -/
def pollQrCodeStatus (U : UrlEnv) (now : Nat) (remote : RemoteFetch QrPollData)
    (st : QrState) (qrcode_key : Option JSStr) : QrPollResultR × QrState :=
  let sessionKey : JSStr := match st.session with
    | some s => s.qrcode_key
    | none => []
  let key : JSStr := match qrcode_key with
    | some k => if k = [] then sessionKey else k
    | none => sessionKey
  if key = [] then
    (⟨.expired, ("无有效的二维码会话，请重新生成").data, none⟩, st)
  else
    let timedOut : Bool := match st.session with
      | some s => decide (now - s.createTime > QRCODE_TIMEOUT)
      | none => false
    if timedOut then
      (⟨.expired, ("二维码已过期，请重新生成").data, none⟩, ⟨none, st.storedCredential⟩)
    else
      match remote with
      | .thrown => (⟨.expired, ("请求异常").data, none⟩, st)
      | .httpError => (⟨.expired, ("网络请求失败").data, none⟩, st)
      | .apiError _ msg => (⟨.expired, msg, none⟩, st)
      | .ok pollData =>
        if pollData.code = 86101 then (⟨.waiting, ("等待扫码").data, none⟩, st)
        else if pollData.code = 86090 then
          (⟨.scanned, ("已扫码，请在手机上确认").data, none⟩, st)
        else if pollData.code = 86038 then
          (⟨.expired, ("二维码已过期").data, none⟩, ⟨none, st.storedCredential⟩)
        else if pollData.code = 0 then
          match parseCredentialFromUrl U now pollData.url pollData.refresh_token with
          | some credential =>
            (⟨.success, ("登录成功").data, some credential⟩, ⟨none, some credential⟩)
          | none => (⟨.expired, ("解析登录凭据失败").data, none⟩, st)
        else
          (⟨.expired,
            (if pollData.message = [] then ("未知状态").data else pollData.message),
            none⟩, st)

/-! ## Cookie refresh (src/src/services/cookie-refresh-service.ts, packaged
with src/src/handlers/message-handler.ts) -/

/-- Case-sensitive literal match returning the remainder of the input. -/
def matchLit : JSStr → JSStr → Option JSStr
  | [], s => some s
  | _ :: _, [] => none
  | l :: ls, c :: cs => if c = l then matchLit ls cs else none

/-- One anchored attempt of the regex
matching a div with id `1-name` and a non-empty `[^<]+` capture before the
closing tag.  The greedy capture cannot usefully backtrack (a shortened
capture would put a non-`<` character where `<` is required), so the
attempt is deterministic. -/
def refreshCsrfAt (s : JSStr) : Option JSStr :=
  match matchLit ("<div id=\"1-name\">").data s with
  | none => none
  | some rest =>
    let cap := rest.takeWhile (fun c => ¬ c = '<')
    if cap = [] then none
    else
      match matchLit ("</div>").data (rest.drop cap.length) with
      | some _ => some cap
      | none => none

/-- Leftmost match of the `refresh_csrf` scrape over the page body. -/
def findRefreshCsrf : JSStr → Option JSStr
  | [] => none
  | c :: cs =>
    match refreshCsrfAt (c :: cs) with
    | some cap => some cap
    | none => findRefreshCsrf cs

/-- `getRefreshCsrf`: `none` when the fetch threw (`html = none`) or when
the marker is absent from the page. -/
def getRefreshCsrf (html : Option JSStr) : Option JSStr :=
  html.bind findRefreshCsrf

/-- Whitespace class `\s` restricted to the characters that can occur in a
set-cookie header. -/
def isSpaceChar (c : Char) : Bool :=
  c = ' ' ∨ c = '\t' ∨ c = '\n' ∨ c = '\r'

/-- The split lookahead `\s*\w+=`: optional spaces, a non-empty word run,
then an equals sign. -/
def lookaheadCookie (s : JSStr) : Bool :=
  let t := s.dropWhile isSpaceChar
  let w := t.takeWhile isWordChar
  w ≠ [] ∧ (t.drop w.length).head? = some '='

/-- `setCookie.split` on a comma followed by the cookie lookahead. -/
def splitCookieHeader : JSStr → List JSStr
  | [] => [[]]
  | c :: cs =>
    match splitCookieHeader cs with
    | [] => [[]]
    | h :: t =>
      if c = ',' ∧ lookaheadCookie cs then [] :: h :: t else (c :: h) :: t

/-- First match of a regex consisting of the cookie-name
literal followed by a non-empty `[^;]+` capture: scan for the literal, take
the run of non-semicolon characters after it, and keep scanning when that
run is empty. -/
def matchCookieVal (name : JSStr) : JSStr → Option JSStr
  | [] => none
  | c :: cs =>
    match matchLit name (c :: cs) with
    | some rest =>
      let v := rest.takeWhile (fun x => ¬ x = ';')
      if v = [] then matchCookieVal name cs else some v
    | none => matchCookieVal name cs

/-- `parseSetCookie`: split the header, then scan each part for the three
cookie fields, later parts overwriting earlier ones; the session value is
percent-decoded. -/
def parseSetCookie (decode : JSStr → JSStr) (hdr : Option JSStr) :
    Option JSStr × Option JSStr × Option JSStr :=
  match hdr with
  | none => (none, none, none)
  | some sc =>
    (splitCookieHeader sc).foldl
      (fun acc part =>
        let s1 := match matchCookieVal ("SESSDATA=").data part with
          | some v => some (decode v)
          | none => acc.1
        let s2 := match matchCookieVal ("bili_jct=").data part with
          | some v => some v
          | none => acc.2.1
        let s3 := match matchCookieVal ("DedeUserID=").data part with
          | some v => some v
          | none => acc.2.2
        (s1, s2, s3))
      (none, none, none)

/-- JavaScript `x || dflt` on an optional string: absent or empty falls
back. -/
def jsOr (o : Option JSStr) (dflt : JSStr) : JSStr :=
  match o with
  | some v => if v = [] then dflt else v
  | none => dflt

/-- JavaScript `!x` on an optional string: truthy only when present and
non-empty. -/
def jsFalsyStr (o : Option JSStr) : Bool :=
  match o with
  | none => true
  | some v => v = []

/-- `data.data` of the cookie-info endpoint. -/
structure CheckRefreshData where
  refresh : Bool
  timestamp : Nat
deriving DecidableEq

/-- Parsed response of the cookie-refresh POST. -/
structure RefreshRespData where
  code : Int
  message : JSStr
  refresh_token : JSStr
  setCookie : Option JSStr
deriving DecidableEq

/-- Oracle for one `performCookieRefresh` run. -/
structure RefreshEnv where
  /-- `checkNeedRefresh` outcome (`none` on non-zero code or a thrown
  fetch). -/
  checkResult : Option CheckRefreshData
  /-- Body of the correspond-path page, `none` when that fetch threw. -/
  correspondHtml : Option JSStr
  /-- Parsed refresh response, `none` when that fetch or its JSON parse
  threw. -/
  refreshResult : Option RefreshRespData
  /-- Code of the confirmation response, `none` when that fetch threw
  (which lands in the outer catch before the save). -/
  confirmResult : Option Int
  /-- `Date.now()` for the new credential's login time. -/
  now : Nat

/-- `performCookieRefresh`, returning the result flag and the stored
credential after the run.  Every failure before the save leaves the
stored credential untouched; a non-zero confirmation code is only
logged. -/
def performCookieRefresh (env : RefreshEnv) (decode : JSStr → JSStr)
    (store : Option BilibiliCredential) : Bool × Option BilibiliCredential :=
  match store with
  | none => (false, store)
  | some credential =>
    match credential.refresh_token with
    | none => (false, store)
    | some oldRefreshToken =>
      if oldRefreshToken = [] then (false, store)
      else
        match env.checkResult with
        | none => (false, store)
        | some checkResult =>
          if ¬ checkResult.refresh then (true, store)
          else
            match getRefreshCsrf env.correspondHtml with
            | none => (false, store)
            | some _refreshCsrf =>
              match env.refreshResult with
              | none => (false, store)
              | some refreshData =>
                if refreshData.code ≠ 0 then (false, store)
                else
                  let newCookies := parseSetCookie decode refreshData.setCookie
                  let newRefreshToken := refreshData.refresh_token
                  if jsFalsyStr newCookies.1 ∨ jsFalsyStr newCookies.2.1 then
                    (false, store)
                  else
                    let newCredential : BilibiliCredential :=
                      ⟨jsOr newCookies.1 credential.sessdata,
                        jsOr newCookies.2.1 credential.bili_jct,
                        jsOr newCookies.2.2 credential.dedeuserid,
                        some newRefreshToken,
                        some env.now⟩
                    match env.confirmResult with
                    | none => (false, store)
                    | some _confirmCode => (true, some newCredential)

/-! ## DASH acquisition pipeline (src/unnamed/part_004, `downloadDashVideo`)

File paths and stream downloads are effects; the oracle records the byte
size each `downloadStream` call would write (or its failure) and the
muxing outcome.  A returned file is represented by its stat size. -/

/-- Oracle for one `downloadDashVideo` run. -/
structure DownloadEnv where
  /-- `fetchVideoDashInfo` outcome. -/
  dashInfo : Option DashPlayInfo
  /-- `pluginState.config.videoQuality || 'auto'`. -/
  videoQuality : VideoQuality
  /-- Video-stream download: `none` on failure, otherwise the byte size of
  the written file. -/
  videoBytes : Option Nat
  /-- Audio-stream download, likewise. -/
  audioBytes : Option Nat
  /-- `mergeVideoAudioWithFFmpeg` succeeded. -/
  mergeOk : Bool
  /-- Stat size of the muxed output file. -/
  mergedBytes : Nat

/-- `downloadDashVideo` with size ceiling `maxSizeMB`.  The returned file is
modelled by its byte size.  The source compares `size / 1024 / 1024 >
maxSizeMB` with exact rational semantics, which is `size > maxSizeMB *
1048576` — and performs that comparison only for the video stream; the
audio file and the muxed output are stat'ed but never size-checked. -/
def downloadDashVideo (env : DownloadEnv) (maxSizeMB : Nat) : Option Nat :=
  match env.dashInfo with
  | none => none
  | some dashInfo =>
    match (getHighestQualityStreams env.videoQuality dashInfo).video,
        (getHighestQualityStreams env.videoQuality dashInfo).audio with
    | some video, some audio =>
      if extractStreamUrl video.backupUrl = [] ∨ extractStreamUrl audio.backupUrl = []
      then none
      else
        match env.videoBytes with
        | none => none
        | some videoSize =>
          if videoSize > maxSizeMB * 1048576 then none
          else
            match env.audioBytes with
            | none => none
            | some _audioSize =>
              if ¬ env.mergeOk then none
              else some env.mergedBytes
    | _, _ => none

/-! ## Link extraction (src/unnamed/part_004, `extractBvid`)

The two regexes are compiled to deterministic matchers.  Alternation
commits are safe at each choice point because the alternatives begin with
mutually exclusive characters, so ordered committed choice coincides with
the regex's leftmost-first backtracking semantics. -/

/-- Case-insensitive literal match (the literal is given lower-case),
returning the remainder. -/
def matchLitCI : JSStr → JSStr → Option JSStr
  | [], s => some s
  | _ :: _, [] => none
  | l :: ls, c :: cs => if lowerChar c = l then matchLitCI ls cs else none

/-- Exactly `n` characters of the class `[0-9A-Za-z]`; returns the captured
run and the remainder. -/
def matchAlnumN : Nat → JSStr → Option (JSStr × JSStr)
  | 0, s => some ([], s)
  | _ + 1, [] => none
  | n + 1, c :: cs =>
    if isAlnumChar c then (matchAlnumN n cs).map (fun p => (c :: p.1, p.2)) else none

/-- The capture group alternation of the full-URL pattern: a `BV` id with
exactly ten alphanumerics, or `av` with one or more digits (greedy).  The
two branches start with different letters, so the first-branch commit is
exact. -/
def matchIdGroup (s : JSStr) : Option JSStr :=
  match matchLitCI ['b', 'v'] s with
  | some rest => (matchAlnumN 10 rest).map (fun p => s.take 2 ++ p.1)
  | none =>
    match matchLitCI ['a', 'v'] s with
    | some rest =>
      let ds := rest.takeWhile isDigitChar
      if ds = [] then none else some (s.take 2 ++ ds)
    | none => none

/-- One anchored attempt of the full-URL pattern
(scheme, optional `www.` or `m.` subdomain, host, video path, id group),
returning the captured id. -/
def matchUrlAt (s : JSStr) : Option JSStr :=
  let afterScheme : Option JSStr :=
    match matchLitCI ("https://").data s with
    | some r => some r
    | none => matchLitCI ("http://").data s
  match afterScheme with
  | none => none
  | some r1 =>
    let afterSub : JSStr :=
      match matchLitCI ("www.").data r1 with
      | some r2 => r2
      | none =>
        match matchLitCI ("m.").data r1 with
        | some r2 => r2
        | none => r1
    match matchLitCI ("bilibili.com/video/").data afterSub with
    | none => none
    | some r3 => matchIdGroup r3

/-- Leftmost match of the full-URL pattern. -/
def findUrlMatch : JSStr → Option JSStr
  | [] => none
  | c :: cs =>
    match matchUrlAt (c :: cs) with
    | some g => some g
    | none => findUrlMatch cs

/-- One anchored attempt of the bare-id pattern
with word boundaries on both sides (the caller guarantees the left
boundary): `BV`, ten alphanumerics, then end of input or a non-word
character. -/
def bvMatchAt : JSStr → Option JSStr
  | b :: v :: rest =>
    if lowerChar b = 'b' ∧ lowerChar v = 'v' then
      match matchAlnumN 10 rest with
      | some (body, after) =>
        match after with
        | [] => some (b :: v :: body)
        | n :: _ => if isWordChar n then none else some (b :: v :: body)
      | none => none
    else none
  | _ => none

/-- Leftmost match of the bare-id pattern; `prevWord` records whether the
character before the current position is a word character (the left
boundary of `\b`). -/
def findBvMatch (prevWord : Bool) : JSStr → Option JSStr
  | [] => none
  | c :: cs =>
    match (if prevWord then none else bvMatchAt (c :: cs)) with
    | some m => some m
    | none => findBvMatch (isWordChar c) cs

/-- `extractBvid`: a full-URL match whose id begins with `bv` (after
lower-casing) is normalised to a `BV` prefix and returned; otherwise the
bare-id pattern is tried and normalised the same way. -/
def extractBvid (text : JSStr) : Option JSStr :=
  let urlRes : Option JSStr :=
    match findUrlMatch text with
    | some id =>
      if (id.take 2).map lowerChar = ['b', 'v'] then some ('B' :: 'V' :: id.drop 2)
      else none
    | none => none
  match urlRes with
  | some r => some r
  | none => (findBvMatch false text).map (fun m => 'B' :: 'V' :: m.drop 2)

/-! ## Example inputs used by the witness theorems -/

/-- A video stream with the given quality id. -/
def mkVideo (i : Int) : DashVideoStream :=
  ⟨i, .str ['u'], 100, [], 1920, 1080, []⟩

/-- An audio stream with the given quality id and bandwidth. -/
def mkAudio (i bw : Int) : DashAudioStream :=
  ⟨i, .str ['u'], bw, []⟩

/-- Manifest with video tiers 16, 32, 64 and 116 (the spec's explicit-mode
example). -/
def dEx1 : DashPlayInfo :=
  ⟨[mkVideo 16, mkVideo 32, mkVideo 64, mkVideo 116],
    [mkAudio 30280 320000], 10, none, none⟩

/-- Manifest with one regular, one Dolby and one FLAC audio candidate, the
regular one carrying the greatest bandwidth. -/
def dEx2 : DashPlayInfo :=
  ⟨[mkVideo 80], [mkAudio 30280 999999], 10,
    some ⟨some [mkAudio 30250 100]⟩, some ⟨some (mkAudio 30251 50)⟩⟩

/-- A concrete cipher for witnesses: the byte lists are in-range and
decryption inverts encryption on character codes below 256. -/
def cW : Cipher :=
  ⟨fun s => ([7, 255], [0, 16], s.map Char.toNat),
   fun _ _ ct => some (ct.map Char.ofNat)⟩

/-- A concrete URL environment for witnesses. -/
def uW : UrlEnv := ⟨fun _ _ => none, id⟩

/-- A stored credential with a refresh token, for the refresh witnesses. -/
def credW : BilibiliCredential :=
  ⟨("sess").data, ("jct").data, ("42").data, some ("rtok").data, some 0⟩

/-- Refresh oracle whose needs-refresh check fails. -/
def envR1 : RefreshEnv := ⟨none, none, none, none, 0⟩

/-- Refresh oracle whose correspond-path page lacks the marker. -/
def envR2 : RefreshEnv :=
  ⟨some ⟨true, 5⟩, some ("<html>nothing here</html>").data, none, none, 0⟩

/-- A correspond-path page that does carry the marker. -/
def htmlW : JSStr := ("<html><div id=\"1-name\">csrfval</div></html>").data

/-- Refresh oracle whose refresh POST answers a non-zero code. -/
def envR3 : RefreshEnv :=
  ⟨some ⟨true, 5⟩, some htmlW, some ⟨-352, ("risk").data, ("rt2").data, none⟩, some 0, 7⟩

/-- Refresh oracle whose refresh response carries no set-cookie header. -/
def envR4 : RefreshEnv :=
  ⟨some ⟨true, 5⟩, some htmlW, some ⟨0, [], ("rt2").data, none⟩, some 0, 7⟩

/-- An active QR session for the poll witnesses. -/
def sessW : QrSession := ⟨("key1").data, ("qrurl").data, 1000⟩

/-- QR state holding `sessW` and no stored credential. -/
def stW : QrState := ⟨some sessW, none⟩

/-- A remote poll answer that would report Waiting. -/
def pollWaiting : QrPollData := ⟨[], [], 86101, []⟩

/-- A remote poll answer with the success code whose redirect URL carries
no query string, so credential parsing fails. -/
def pollBadUrl : QrPollData :=
  ⟨("https://passport.biligame.com/crossDomain").data, ("rt").data, 0, []⟩

/-- Acquisition oracle whose audio payload and muxed output both exceed a
one-megabyte ceiling while the video stream stays under it. -/
def envD1 : DownloadEnv := ⟨some dEx2, .auto, some 1000, some 10485761, true, 5242880⟩

/-- Acquisition oracle with a failed video-stream download. -/
def envD2 : DownloadEnv := ⟨some dEx2, .auto, none, some 5, true, 7⟩

/-- Acquisition oracle with an oversized video stream. -/
def envD3 : DownloadEnv := ⟨some dEx2, .auto, some 99999999, some 5, true, 7⟩

/-- Acquisition oracle with a failed audio-stream download. -/
def envD4 : DownloadEnv := ⟨some dEx2, .auto, some 1000, none, true, 7⟩

/-- Acquisition oracle with a failed muxing invocation. -/
def envD5 : DownloadEnv := ⟨some dEx2, .auto, some 1000, some 1000, false, 7⟩

/-- The spec's dedup example key: group `1`, video `BVxxxx`. -/
def gW : JSStr := ("1").data

/-- The spec's dedup example video id. -/
def bvW : JSStr := ("BVxxxx").data

/-- A message-handler oracle whose run reaches the forward send and fails
to deliver. -/
def envM : MessageEnv :=
  ⟨true, true, some gW, true, false, true, some bvW, some 300, true, false, 500⟩

end Bili

namespace Bili

/-! # Theorems -/

/-! ## Stable sort and first-minimum helpers -/

/-- The head of a stable insertion is the inserted element or the previous
head, decided by one comparison. -/
theorem insertLe_head (le : α → α → Bool) (x : α) (s : List α) :
    (insertLe le x s).head? =
      some (match s.head? with
            | none => x
            | some y => if le x y then x else y) := by
  cases s with
  | nil => rfl
  | cons y ys =>
    simp only [insertLe, List.head?_cons]
    by_cases h : le x y = true
    · simp [h]
    · simp [h]

/-- The head of the stable sort is the first minimal element. -/
theorem sortLe_head (le : α → α → Bool) (l : List α) :
    (sortLe le l).head? = selBest le l := by
  induction l with
  | nil => rfl
  | cons x xs ih =>
    show (insertLe le x (sortLe le xs)).head? = selBest le (x :: xs)
    rw [insertLe_head, ih]
    cases h : selBest le xs with
    | none => simp [selBest, h]
    | some b =>
      simp only [selBest, h]
      by_cases hc : le x b = true <;> simp [hc]

/-- A selected element is a member of the list. -/
theorem selBest_mem (le : α → α → Bool) (l : List α) (b : α)
    (h : selBest le l = some b) : b ∈ l := by
  induction l with
  | nil => simp [selBest] at h
  | cons x xs ih =>
    simp only [selBest] at h
    cases hx : selBest le xs with
    | none => rw [hx] at h; simp at h; simp [h]
    | some c =>
      rw [hx] at h
      by_cases hc : le x c = true
      · simp [hc] at h; simp [h]
      · simp [hc] at h
        exact List.mem_cons_of_mem x (ih (h ▸ hx))

/-- `selBest` answers `none` exactly on the empty list. -/
theorem selBest_eq_none (le : α → α → Bool) (l : List α) :
    selBest le l = none ↔ l = [] := by
  cases l with
  | nil => simp [selBest]
  | cons x xs =>
    simp only [selBest]
    cases hx : selBest le xs with
    | none => simp
    | some c => by_cases hc : le x c = true <;> simp [hc]

/-- A non-empty list has a selected element. -/
theorem selBest_isSome (le : α → α → Bool) (l : List α) (h : l ≠ []) :
    ∃ b, selBest le l = some b := by
  cases hb : selBest le l with
  | none => exact absurd ((selBest_eq_none le l).mp hb) h
  | some b => exact ⟨b, rfl⟩

/-- With the descending-id comparator, the selected video stream carries
the maximal quality id. -/
theorem selBest_videoDescLe_max (l : List DashVideoStream) :
    ∀ b, selBest videoDescLe l = some b → ∀ u ∈ l, u.id ≤ b.id := by
  induction l with
  | nil => intro b h; simp [selBest] at h
  | cons x xs ih =>
    intro b h u hu
    simp only [selBest] at h
    cases hx : selBest videoDescLe xs with
    | none =>
      rw [hx] at h
      obtain rfl : x = b := by injection h
      have hxs : xs = [] := (selBest_eq_none _ _).mp hx
      subst hxs
      rcases List.mem_cons.mp hu with hux | hum
      · subst hux; exact le_refl _
      · simp at hum
    | some c =>
      rw [hx] at h
      replace h : (if videoDescLe x c = true then some x else some c) = some b := h
      have hcm := ih c hx
      by_cases hc : videoDescLe x c = true
      · rw [if_pos hc] at h
        obtain rfl : x = b := by injection h
        simp only [videoDescLe, decide_eq_true_eq] at hc
        rcases List.mem_cons.mp hu with hux | hum
        · subst hux; exact le_refl _
        · have := hcm u hum; omega
      · rw [if_neg hc] at h
        obtain rfl : c = b := by injection h
        simp only [videoDescLe, decide_eq_true_eq] at hc
        rcases List.mem_cons.mp hu with hux | hum
        · subst hux; omega
        · exact hcm u hum

/-- With the ascending-id comparator, the selected video stream carries the
minimal quality id. -/
theorem selBest_videoAscLe_min (l : List DashVideoStream) :
    ∀ b, selBest videoAscLe l = some b → ∀ u ∈ l, b.id ≤ u.id := by
  induction l with
  | nil => intro b h; simp [selBest] at h
  | cons x xs ih =>
    intro b h u hu
    simp only [selBest] at h
    cases hx : selBest videoAscLe xs with
    | none =>
      rw [hx] at h
      obtain rfl : x = b := by injection h
      have hxs : xs = [] := (selBest_eq_none _ _).mp hx
      subst hxs
      rcases List.mem_cons.mp hu with hux | hum
      · subst hux; exact le_refl _
      · simp at hum
    | some c =>
      rw [hx] at h
      replace h : (if videoAscLe x c = true then some x else some c) = some b := h
      have hcm := ih c hx
      by_cases hc : videoAscLe x c = true
      · rw [if_pos hc] at h
        obtain rfl : x = b := by injection h
        simp only [videoAscLe, decide_eq_true_eq] at hc
        rcases List.mem_cons.mp hu with hux | hum
        · subst hux; exact le_refl _
        · have := hcm u hum; omega
      · rw [if_neg hc] at h
        obtain rfl : c = b := by injection h
        simp only [videoAscLe, decide_eq_true_eq] at hc
        rcases List.mem_cons.mp hu with hux | hum
        · subst hux; omega
        · exact hcm u hum

/-- When a FLAC candidate (id 30251) is present, the selection is the first
FLAC candidate. -/
theorem selBest_audio_flac (l : List DashAudioStream)
    (hex : ∃ x ∈ l, x.id = 30251) :
    selBest audioLe l = l.find? (fun x => x.id = 30251) := by
  induction l with
  | nil => simp at hex
  | cons x xs ih =>
    by_cases hx : x.id = 30251
    · have hfind : (x :: xs).find? (fun x => x.id = 30251) = some x := by
        simp [List.find?_cons, hx]
      rw [hfind]
      simp only [selBest]
      cases hs : selBest audioLe xs with
      | none => rfl
      | some b =>
        have hle : audioLe x b = true := by
          simp only [audioLe, audioCmp, hx, if_pos]
          decide
        simp [hle]
    · have hxs : ∃ y ∈ xs, y.id = 30251 := by
        rcases hex with ⟨y, hy, hy2⟩
        rcases List.mem_cons.mp hy with rfl | hm
        · exact absurd hy2 hx
        · exact ⟨y, hm, hy2⟩
      have hfind : (x :: xs).find? (fun x => x.id = 30251)
          = xs.find? (fun x => x.id = 30251) := by
        simp [List.find?_cons, hx]
      rw [hfind, ← ih hxs]
      obtain ⟨b, hb⟩ := selBest_isSome audioLe xs (by
        rcases hxs with ⟨y, hy, _⟩
        exact List.ne_nil_of_mem hy)
      have hbf : b.id = 30251 := by
        have := ih hxs
        rw [this] at hb
        have := List.find?_some hb
        simpa using this
      have hle : audioLe x b = false := by
        simp only [audioLe, audioCmp, hx, if_neg, hbf, if_pos]
        decide
      simp only [selBest, hb, hle]
      simp

/-- When no FLAC candidate is present but a Dolby candidate (id 30250) is,
the selection is the first Dolby candidate. -/
theorem selBest_audio_dolby (l : List DashAudioStream)
    (hnf : ∀ x ∈ l, x.id ≠ 30251) (hex : ∃ x ∈ l, x.id = 30250) :
    selBest audioLe l = l.find? (fun x => x.id = 30250) := by
  induction l with
  | nil => simp at hex
  | cons x xs ih =>
    have hxnf : x.id ≠ 30251 := hnf x (List.mem_cons_self x xs)
    have hxsnf : ∀ y ∈ xs, y.id ≠ 30251 := fun y hy => hnf y (List.mem_cons_of_mem x hy)
    by_cases hx : x.id = 30250
    · have hfind : (x :: xs).find? (fun x => x.id = 30250) = some x := by
        simp [List.find?_cons, hx]
      rw [hfind]
      simp only [selBest]
      cases hs : selBest audioLe xs with
      | none => rfl
      | some b =>
        have hbm : b ∈ xs := selBest_mem audioLe xs b hs
        have hbnf : b.id ≠ 30251 := hxsnf b hbm
        have hle : audioLe x b = true := by
          simp only [audioLe, audioCmp, hxnf, if_neg, hbnf, hx, if_pos]
          decide
        simp [hle]
    · have hxs : ∃ y ∈ xs, y.id = 30250 := by
        rcases hex with ⟨y, hy, hy2⟩
        rcases List.mem_cons.mp hy with rfl | hm
        · exact absurd hy2 hx
        · exact ⟨y, hm, hy2⟩
      have hfind : (x :: xs).find? (fun x => x.id = 30250)
          = xs.find? (fun x => x.id = 30250) := by
        simp [List.find?_cons, hx]
      rw [hfind, ← ih hxsnf hxs]
      obtain ⟨b, hb⟩ := selBest_isSome audioLe xs (by
        rcases hxs with ⟨y, hy, _⟩
        exact List.ne_nil_of_mem hy)
      have hbd : b.id = 30250 := by
        have := ih hxsnf hxs
        rw [this] at hb
        have := List.find?_some hb
        simpa using this
      have hbm : b ∈ xs := selBest_mem audioLe xs b hb
      have hbnf : b.id ≠ 30251 := hxsnf b hbm
      have hle : audioLe x b = false := by
        simp only [audioLe, audioCmp, hxnf, if_neg, hbnf, hx, hbd, if_pos]
        decide
      simp only [selBest, hb, hle]
      simp

/-- When neither FLAC nor Dolby candidates are present, the selection is
the first candidate attaining the maximal bandwidth. -/
theorem selBest_audio_bandwidth (l : List DashAudioStream)
    (hnf : ∀ x ∈ l, x.id ≠ 30251) (hnd : ∀ x ∈ l, x.id ≠ 30250) :
    ∀ b, selBest audioLe l = some b →
      (∀ u ∈ l, u.bandwidth ≤ b.bandwidth) ∧
        l.find? (fun u => b.bandwidth ≤ u.bandwidth) = some b := by
  induction l with
  | nil => intro b h; simp [selBest] at h
  | cons x xs ih =>
    intro b h
    have hxnf : x.id ≠ 30251 := hnf x (List.mem_cons_self x xs)
    have hxnd : x.id ≠ 30250 := hnd x (List.mem_cons_self x xs)
    have hxsnf : ∀ y ∈ xs, y.id ≠ 30251 := fun y hy => hnf y (List.mem_cons_of_mem x hy)
    have hxsnd : ∀ y ∈ xs, y.id ≠ 30250 := fun y hy => hnd y (List.mem_cons_of_mem x hy)
    simp only [selBest] at h
    cases hs : selBest audioLe xs with
    | none =>
      rw [hs] at h
      obtain rfl : x = b := by injection h
      have hxs : xs = [] := (selBest_eq_none _ _).mp hs
      subst hxs
      refine ⟨?_, ?_⟩
      · intro u hu
        rcases List.mem_cons.mp hu with rfl | hm
        · exact le_refl _
        · simp at hm
      · simp [List.find?_cons]
    | some c =>
      rw [hs] at h
      have hcm : c ∈ xs := selBest_mem audioLe xs c hs
      have hcnf : c.id ≠ 30251 := hxsnf c hcm
      have hcnd : c.id ≠ 30250 := hxsnd c hcm
      obtain ⟨hmaxc, hfindc⟩ := ih hxsnf hxsnd c hs
      have hcmp : audioLe x c = decide (c.bandwidth ≤ x.bandwidth) := by
        simp only [audioLe, audioCmp, hxnf, if_neg, hcnf, hxnd, hcnd, ite_false]
        exact decide_eq_decide.mpr (by omega)
      replace h : (if audioLe x c = true then some x else some c) = some b := h
      rw [hcmp] at h
      by_cases hcx : c.bandwidth ≤ x.bandwidth
      · replace h : some x = some b := by simpa [hcx] using h
        obtain rfl : x = b := by injection h
        refine ⟨?_, ?_⟩
        · intro u hu
          rcases List.mem_cons.mp hu with rfl | hm
          · exact le_refl _
          · exact le_trans (hmaxc u hm) hcx
        · simp [List.find?_cons]
      · replace h : some c = some b := by simpa [hcx] using h
        obtain rfl : c = b := by injection h
        refine ⟨?_, ?_⟩
        · intro u hu
          rcases List.mem_cons.mp hu with rfl | hm
          · omega
          · exact hmaxc u hm
        · have hxlt : ¬ c.bandwidth ≤ x.bandwidth := hcx
          simp only [List.find?_cons]
          have : (decide (c.bandwidth ≤ x.bandwidth)) = false := by
            simpa using hxlt
          rw [this]
          exact hfindc


/-! ## C1 and C2: stream selection -/

/-- Claim C1: for every DASH manifest with a non-empty video-stream list,
`getHighestQualityStreams` returns a video stream; with preference `auto`
it carries the numerically highest quality-tier id; with an explicit
preference it is the stream with the target tier id when one exists,
otherwise the stream with the highest tier id not exceeding the target,
otherwise (every candidate exceeding the target) the stream with the
lowest tier id. -/
theorem getHighestQualityStreams_video_spec (q : VideoQuality) (d : DashPlayInfo)
    (hne : d.video ≠ []) :
    ∃ v, (getHighestQualityStreams q d).video = some v ∧ v ∈ d.video ∧
      (q = .auto → ∀ u ∈ d.video, u.id ≤ v.id) ∧
      (q ≠ .auto →
        ((∃ u ∈ d.video, u.id = videoQualityMap q) → v.id = videoQualityMap q) ∧
        ((¬ ∃ u ∈ d.video, u.id = videoQualityMap q) →
          (∃ u ∈ d.video, u.id ≤ videoQualityMap q) →
          v.id ≤ videoQualityMap q ∧
            ∀ u ∈ d.video, u.id ≤ videoQualityMap q → u.id ≤ v.id) ∧
        ((∀ u ∈ d.video, videoQualityMap q < u.id) → ∀ u ∈ d.video, v.id ≤ u.id)) := by
  have hv : (getHighestQualityStreams q d).video = selectVideoStream q d.video := rfl
  rw [hv]
  by_cases hq : q = VideoQuality.auto
  · subst hq
    have hsel1 : selectVideoStream .auto d.video = selBest videoDescLe d.video := by
      rw [selectVideoStream, if_neg hne, if_pos rfl, sortLe_head]
    obtain ⟨b, hb⟩ := selBest_isSome videoDescLe d.video hne
    exact ⟨b, by rw [hsel1, hb], selBest_mem _ _ _ hb,
      fun _ => selBest_videoDescLe_max _ b hb,
      fun hq2 => absurd rfl hq2⟩
  · have hsel1 : selectVideoStream q d.video =
        (match d.video.find? (fun v => v.id = videoQualityMap q) with
         | some v => some v
         | none =>
           match (sortLe videoDescLe
               (d.video.filter (fun v => v.id ≤ videoQualityMap q))).head? with
           | some v => some v
           | none => (sortLe videoAscLe d.video).head?) := by
      rw [selectVideoStream, if_neg hne, if_neg hq]
    cases hfind : d.video.find? (fun v => v.id = videoQualityMap q) with
    | some w =>
      rw [hfind] at hsel1
      replace hsel1 : selectVideoStream q d.video = some w := hsel1
      have hwmem : w ∈ d.video := List.mem_of_find?_eq_some hfind
      have hwid : w.id = videoQualityMap q := by
        have := List.find?_some hfind
        simpa using this
      refine ⟨w, hsel1, hwmem, fun ha => absurd ha hq, fun _ => ⟨fun _ => hwid, ?_, ?_⟩⟩
      · intro hnex _
        exact absurd ⟨w, hwmem, hwid⟩ hnex
      · intro hall u hu
        have h1 := hall w hwmem
        have h2 := hall u hu
        omega
    | none =>
      rw [hfind] at hsel1
      replace hsel1 : selectVideoStream q d.video =
          (match (sortLe videoDescLe
              (d.video.filter (fun v => v.id ≤ videoQualityMap q))).head? with
           | some v => some v
           | none => (sortLe videoAscLe d.video).head?) := hsel1
      rw [sortLe_head] at hsel1
      have hnone : ∀ u ∈ d.video, ¬ u.id = videoQualityMap q := by
        intro u hu
        have := List.find?_eq_none.mp hfind u hu
        simpa using this
      cases hsel : selBest videoDescLe
          (d.video.filter (fun v => v.id ≤ videoQualityMap q)) with
      | some w =>
        rw [hsel] at hsel1
        replace hsel1 : selectVideoStream q d.video = some w := hsel1
        have hwf : w ∈ d.video.filter (fun v => v.id ≤ videoQualityMap q) :=
          selBest_mem _ _ _ hsel
        have hwmem : w ∈ d.video := (List.mem_filter.mp hwf).1
        have hwle : w.id ≤ videoQualityMap q := by
          have := (List.mem_filter.mp hwf).2
          simpa using this
        have hmax := selBest_videoDescLe_max _ w hsel
        refine ⟨w, hsel1, hwmem, fun ha => absurd ha hq, fun _ => ⟨?_, ?_, ?_⟩⟩
        · rintro ⟨u, hu, huid⟩
          exact absurd huid (hnone u hu)
        · intro _ _
          refine ⟨hwle, fun u hu hule => ?_⟩
          exact hmax u (List.mem_filter.mpr ⟨hu, by simpa using hule⟩)
        · intro hall
          exact absurd (hall w hwmem) (by omega)
      | none =>
        rw [hsel] at hsel1
        rw [sortLe_head] at hsel1
        have hfilnil : d.video.filter (fun v => v.id ≤ videoQualityMap q) = [] :=
          (selBest_eq_none _ _).mp hsel
        have hexceed : ∀ u ∈ d.video, videoQualityMap q < u.id := by
          intro u hu
          by_contra hle
          have hmem : u ∈ d.video.filter (fun v => v.id ≤ videoQualityMap q) :=
            List.mem_filter.mpr ⟨hu, by simpa using (by omega : u.id ≤ videoQualityMap q)⟩
          rw [hfilnil] at hmem
          simp at hmem
        obtain ⟨b, hb⟩ := selBest_isSome videoAscLe d.video hne
        rw [hb] at hsel1
        replace hsel1 : selectVideoStream q d.video = some b := hsel1
        have hmin := selBest_videoAscLe_min _ b hb
        refine ⟨b, hsel1, selBest_mem _ _ _ hb, fun ha => absurd ha hq,
          fun _ => ⟨?_, ?_, fun _ => hmin⟩⟩
        · rintro ⟨u, hu, huid⟩
          exact absurd huid (hnone u hu)
        · rintro _ ⟨u, hu, hule⟩
          exact absurd (hexceed u hu) (by omega)

/-- Claim C1 witness: the spec's explicit-mode example, target tier 80
over available tiers 16, 32, 64, 116. -/
theorem getHighestQualityStreams_video_spec_witness :
    dEx1.video ≠ [] ∧
      (∃ v, (getHighestQualityStreams .q1080p dEx1).video = some v ∧ v ∈ dEx1.video ∧
        (VideoQuality.q1080p = .auto → ∀ u ∈ dEx1.video, u.id ≤ v.id) ∧
        (VideoQuality.q1080p ≠ .auto →
          ((∃ u ∈ dEx1.video, u.id = videoQualityMap .q1080p) →
            v.id = videoQualityMap .q1080p) ∧
          ((¬ ∃ u ∈ dEx1.video, u.id = videoQualityMap .q1080p) →
            (∃ u ∈ dEx1.video, u.id ≤ videoQualityMap .q1080p) →
            v.id ≤ videoQualityMap .q1080p ∧
              ∀ u ∈ dEx1.video, u.id ≤ videoQualityMap .q1080p → u.id ≤ v.id) ∧
          ((∀ u ∈ dEx1.video, videoQualityMap .q1080p < u.id) →
            ∀ u ∈ dEx1.video, v.id ≤ u.id))) :=
  ⟨by decide, getHighestQualityStreams_video_spec .q1080p dEx1 (by decide)⟩

/-- Claim C2: audio selection works on the pooled regular, Dolby and FLAC
candidates; it returns the first FLAC candidate when one is present
(regardless of bandwidth), otherwise the first Dolby candidate when one is
present, otherwise the first candidate attaining the greatest bandwidth. -/
theorem getHighestQualityStreams_audio_spec (q : VideoQuality) (d : DashPlayInfo)
    (hne : audioPool d ≠ []) :
    ∃ a, (getHighestQualityStreams q d).audio = some a ∧ a ∈ audioPool d ∧
      ((∃ x ∈ audioPool d, x.id = 30251) →
        a.id = 30251 ∧ (audioPool d).find? (fun x => x.id = 30251) = some a) ∧
      ((∀ x ∈ audioPool d, x.id ≠ 30251) → (∃ x ∈ audioPool d, x.id = 30250) →
        a.id = 30250 ∧ (audioPool d).find? (fun x => x.id = 30250) = some a) ∧
      ((∀ x ∈ audioPool d, x.id ≠ 30251 ∧ x.id ≠ 30250) →
        (∀ u ∈ audioPool d, u.bandwidth ≤ a.bandwidth) ∧
          (audioPool d).find? (fun u => a.bandwidth ≤ u.bandwidth) = some a) := by
  have hv : (getHighestQualityStreams q d).audio =
      if audioPool d = [] then none else (sortLe audioLe (audioPool d)).head? := rfl
  rw [hv, if_neg hne, sortLe_head]
  obtain ⟨a, ha⟩ := selBest_isSome audioLe (audioPool d) hne
  refine ⟨a, ha, selBest_mem _ _ _ ha, ?_, ?_, ?_⟩
  · intro hex
    have := selBest_audio_flac (audioPool d) hex
    rw [this] at ha
    refine ⟨?_, ha⟩
    have := List.find?_some ha
    simpa using this
  · intro hnf hex
    have := selBest_audio_dolby (audioPool d) hnf hex
    rw [this] at ha
    refine ⟨?_, ha⟩
    have := List.find?_some ha
    simpa using this
  · intro hboth
    exact selBest_audio_bandwidth (audioPool d)
      (fun x hx => (hboth x hx).1) (fun x hx => (hboth x hx).2) a ha

/-- Claim C2 witness: the spec's example with one lossless, one premium and
one high-bandwidth regular candidate; the lossless one wins. -/
theorem getHighestQualityStreams_audio_spec_witness :
    audioPool dEx2 ≠ [] ∧
      (∃ a, (getHighestQualityStreams .auto dEx2).audio = some a ∧ a ∈ audioPool dEx2 ∧
        ((∃ x ∈ audioPool dEx2, x.id = 30251) →
          a.id = 30251 ∧ (audioPool dEx2).find? (fun x => x.id = 30251) = some a) ∧
        ((∀ x ∈ audioPool dEx2, x.id ≠ 30251) → (∃ x ∈ audioPool dEx2, x.id = 30250) →
          a.id = 30250 ∧ (audioPool dEx2).find? (fun x => x.id = 30250) = some a) ∧
        ((∀ x ∈ audioPool dEx2, x.id ≠ 30251 ∧ x.id ≠ 30250) →
          (∀ u ∈ audioPool dEx2, u.bandwidth ≤ a.bandwidth) ∧
            (audioPool dEx2).find? (fun u => a.bandwidth ≤ u.bandwidth) = some a)) :=
  ⟨by decide, getHighestQualityStreams_audio_spec .auto dEx2 (by decide)⟩


/-! ## C5: credential encryption round-trip -/

/-- Hex digits evaluate back to their value. -/
theorem hexDigitVal_hexDigitChar (n : Nat) (h : n < 16) :
    hexDigitVal (hexDigitChar n) = some n := by
  interval_cases n <;> decide

/-- Hex digits are never the separator colon. -/
theorem hexDigitChar_ne_colon (n : Nat) (h : n < 16) : hexDigitChar n ≠ ':' := by
  interval_cases n <;> decide

/-- Decoding inverts encoding on genuine byte lists. -/
theorem hexDecode_hexEncode (bs : List Nat) (h : ∀ b ∈ bs, b < 256) :
    hexDecode (hexEncode bs) = bs := by
  induction bs with
  | nil => rfl
  | cons b rest ih =>
    have hb : b < 256 := h b (List.mem_cons_self b rest)
    have hrest : ∀ x ∈ rest, x < 256 := fun x hx => h x (List.mem_cons_of_mem b hx)
    have hdiv : b / 16 < 16 := by omega
    have hmod : b % 16 < 16 := by omega
    show hexDecode (byteToHex b ++ hexEncode rest) = b :: rest
    rw [byteToHex]
    show hexDecode (hexDigitChar (b / 16) :: hexDigitChar (b % 16) :: hexEncode rest)
      = b :: rest
    rw [hexDecode, hexDigitVal_hexDigitChar _ hdiv, hexDigitVal_hexDigitChar _ hmod]
    simp only [ih hrest]
    congr 1
    omega

/-- Encoded byte lists contain no colon. -/
theorem hexEncode_no_colon (bs : List Nat) (h : ∀ b ∈ bs, b < 256) :
    ':' ∉ hexEncode bs := by
  induction bs with
  | nil => simp [hexEncode]
  | cons b rest ih =>
    have hb : b < 256 := h b (List.mem_cons_self b rest)
    have hrest : ∀ x ∈ rest, x < 256 := fun x hx => h x (List.mem_cons_of_mem b hx)
    show ':' ∉ byteToHex b ++ hexEncode rest
    rw [byteToHex]
    intro hmem
    rcases List.mem_append.mp hmem with hl | hr
    · rcases List.mem_cons.mp hl with h1 | h1
      · exact hexDigitChar_ne_colon (b / 16) (by omega) h1.symm
      · rcases List.mem_cons.mp h1 with h2 | h2
        · exact hexDigitChar_ne_colon (b % 16) (by omega) h2.symm
        · simp at h2
    · exact ih hrest hr

/-- `splitOnChar` never returns the empty list. -/
theorem splitOnChar_ne_nil (sep : Char) (l : JSStr) : splitOnChar sep l ≠ [] := by
  cases l with
  | nil => simp [splitOnChar]
  | cons c cs =>
    rw [splitOnChar]
    cases h : splitOnChar sep cs with
    | nil => simp
    | cons hd tl => by_cases hc : c = sep <;> simp [hc]

/-- A separator-free string is returned whole. -/
theorem splitOnChar_no_sep (sep : Char) (a : JSStr) (h : sep ∉ a) :
    splitOnChar sep a = [a] := by
  induction a with
  | nil => rfl
  | cons c cs ih =>
    have hc : ¬ c = sep := fun hcc => h (hcc ▸ List.mem_cons_self c cs)
    have hcs : sep ∉ cs := fun hm => h (List.mem_cons_of_mem c hm)
    rw [splitOnChar, ih hcs]
    simp [hc]

/-- Splitting after a separator-free chunk peels that chunk off. -/
theorem splitOnChar_append (sep : Char) (a rest : JSStr) (h : sep ∉ a) :
    splitOnChar sep (a ++ sep :: rest) = a :: splitOnChar sep rest := by
  induction a with
  | nil =>
    show splitOnChar sep (sep :: rest) = [] :: splitOnChar sep rest
    rw [splitOnChar]
    cases hr : splitOnChar sep rest with
    | nil => exact absurd hr (splitOnChar_ne_nil sep rest)
    | cons hd tl => simp
  | cons c cs ih =>
    have hc : ¬ c = sep := fun hcc => h (hcc ▸ List.mem_cons_self c cs)
    have hcs : sep ∉ cs := fun hm => h (List.mem_cons_of_mem c hm)
    show splitOnChar sep (c :: (cs ++ sep :: rest)) = (c :: cs) :: splitOnChar sep rest
    rw [splitOnChar, ih hcs]
    simp [hc]

/-- Claim C5: for every non-empty string, decrypting the encryption yields
the string back (given the platform cipher's own inversion property and
byte-valued outputs), and every value that does not start with the `ENC:`
marker is returned unchanged by decryption. -/
theorem decryptString_encryptString (C : Cipher) :
    (∀ s : JSStr, s ≠ [] →
      C.decrypt (C.encrypt s).1 (C.encrypt s).2.1 (C.encrypt s).2.2 = some s →
      (∀ b ∈ (C.encrypt s).1, b < 256) →
      (∀ b ∈ (C.encrypt s).2.1, b < 256) →
      (∀ b ∈ (C.encrypt s).2.2, b < 256) →
      decryptString C (encryptString C s) = s)
    ∧ (∀ v : JSStr, v.take 4 ≠ encMarker → decryptString C v = v) := by
  constructor
  · intro s hs hdec hiv htag hct
    have henc0 : encryptString C s =
        encMarker ++ hexEncode (C.encrypt s).1
          ++ ':' :: hexEncode (C.encrypt s).2.1
          ++ ':' :: hexEncode (C.encrypt s).2.2 := by
      rw [encryptString, if_neg hs]
    have henc : encryptString C s =
        encMarker ++ (hexEncode (C.encrypt s).1
          ++ ':' :: (hexEncode (C.encrypt s).2.1
            ++ ':' :: hexEncode (C.encrypt s).2.2)) := by
      rw [henc0]
      simp [List.append_assoc]
    rw [henc]
    have hnil : encMarker ++ (hexEncode (C.encrypt s).1
        ++ ':' :: (hexEncode (C.encrypt s).2.1
          ++ ':' :: hexEncode (C.encrypt s).2.2)) ≠ [] := by
      simp [encMarker]
    have htake : (encMarker ++ (hexEncode (C.encrypt s).1
        ++ ':' :: (hexEncode (C.encrypt s).2.1
          ++ ':' :: hexEncode (C.encrypt s).2.2))).take 4 = encMarker := by
      have h4 : (4 : Nat) = encMarker.length := rfl
      rw [h4, List.take_left]
    have hdrop : (encMarker ++ (hexEncode (C.encrypt s).1
        ++ ':' :: (hexEncode (C.encrypt s).2.1
          ++ ':' :: hexEncode (C.encrypt s).2.2))).drop 4 =
        hexEncode (C.encrypt s).1
          ++ ':' :: (hexEncode (C.encrypt s).2.1
            ++ ':' :: hexEncode (C.encrypt s).2.2) := by
      have h4 : (4 : Nat) = encMarker.length := rfl
      rw [h4, List.drop_left]
    rw [decryptString, if_neg hnil, htake, if_neg (by simp), hdrop]
    rw [splitOnChar_append ':' _ _ (hexEncode_no_colon _ hiv),
      splitOnChar_append ':' _ _ (hexEncode_no_colon _ htag),
      splitOnChar_no_sep ':' _ (hexEncode_no_colon _ hct)]
    show (match C.decrypt (hexDecode (hexEncode (C.encrypt s).1))
        (hexDecode (hexEncode (C.encrypt s).2.1))
        (hexDecode (hexEncode (C.encrypt s).2.2)) with
      | some t => t
      | none => encMarker ++ (hexEncode (C.encrypt s).1
          ++ ':' :: (hexEncode (C.encrypt s).2.1
            ++ ':' :: hexEncode (C.encrypt s).2.2))) = s
    rw [hexDecode_hexEncode _ hiv, hexDecode_hexEncode _ htag, hexDecode_hexEncode _ hct,
      hdec]
  · intro v hv
    by_cases hnil : v = []
    · rw [decryptString, if_pos hnil]
    · rw [decryptString, if_neg hnil, if_pos hv]

/-- Claim C5 witness: a concrete round-trip through the witness cipher and
an unmarked value passing through unchanged. -/
theorem decryptString_encryptString_witness :
    (decryptString cW (encryptString cW ['a', 'b']) = ['a', 'b']) ∧
      decryptString cW ('p' :: ("lain").data) = 'p' :: ("lain").data :=
  ⟨(decryptString_encryptString cW).1 ['a', 'b'] (by decide) (by decide) (by decide)
      (by decide) (by decide),
    (decryptString_encryptString cW).2 ('p' :: ("lain").data) (by decide)⟩


/-! ## C10: sanitised credentials are usable -/

/-- Claim C10: `sanitizeConfig` installs a credential only when the
decrypted session token, CSRF token and account id are all non-empty, in
which case the store reports the logged-in state; a partially populated
persisted credential is dropped entirely, leaving the normal
unauthenticated state. -/
theorem sanitizeCredential_usable (C : Cipher) (raw : Option RawCred) :
    (∀ cred, sanitizeCredential C raw = some cred →
      cred.sessdata ≠ [] ∧ cred.bili_jct ≠ [] ∧ cred.dedeuserid ≠ [] ∧
        isLoggedIn (some cred) = true) ∧
    (∀ c, raw = some c →
      (rawStrField C c.sessdata = [] ∨ rawStrField C c.bili_jct = [] ∨
        rawStrField C c.dedeuserid = []) →
      sanitizeCredential C raw = none ∧
        isLoggedIn (sanitizeCredential C raw) = false) := by
  constructor
  · intro cred hcred
    cases raw with
    | none => simp [sanitizeCredential] at hcred
    | some c =>
      rw [sanitizeCredential] at hcred
      by_cases hok : rawStrField C c.sessdata ≠ [] ∧ rawStrField C c.bili_jct ≠ [] ∧
          rawStrField C c.dedeuserid ≠ []
      · rw [if_pos hok] at hcred
        obtain rfl : _ = cred := by injection hcred
        refine ⟨hok.1, hok.2.1, hok.2.2, ?_⟩
        simp only [isLoggedIn]
        simp [hok.1, hok.2.1, hok.2.2]
      · rw [if_neg hok] at hcred
        exact absurd hcred (by simp)
  · rintro c rfl hbad
    have hnok : ¬ (rawStrField C c.sessdata ≠ [] ∧ rawStrField C c.bili_jct ≠ [] ∧
        rawStrField C c.dedeuserid ≠ []) := by
      rcases hbad with h | h | h <;> simp [h]
    have hnone : sanitizeCredential C (some c) = none := by
      rw [sanitizeCredential, if_neg hnok]
    exact ⟨hnone, by rw [hnone]; rfl⟩

/-- A persisted record for the C10 witness: only the session token is
present, so the credential must be dropped. -/
def rawPartial : RawCred :=
  ⟨some (.str ("sess").data), none, some (.str ("123").data), none, none⟩

/-- Claim C10 witness at a concrete partially-populated record and at the
credential produced from a fully-populated record. -/
theorem sanitizeCredential_usable_witness :
    ((some rawPartial : Option RawCred) = some rawPartial ∧
      (rawStrField cW rawPartial.sessdata = [] ∨ rawStrField cW rawPartial.bili_jct = [] ∨
        rawStrField cW rawPartial.dedeuserid = []) ∧
      sanitizeCredential cW (some rawPartial) = none ∧
        isLoggedIn (sanitizeCredential cW (some rawPartial)) = false) :=
  ⟨rfl, by decide,
    (sanitizeCredential_usable cW (some rawPartial)).2 rawPartial rfl (by decide)⟩


/-! ## C3: failed refresh steps leave the stored credential unchanged -/

/-- Claim C3: every failing step of `performCookieRefresh` before the final
save — a failed needs-refresh check, a correspond-path page without the
`refresh_csrf` marker, a refresh POST with non-zero code, or a refresh
response missing the new session or CSRF cookie — makes the run return
`false` with the stored credential exactly as it was. -/
theorem performCookieRefresh_failure_preserves (env : RefreshEnv)
    (decode : JSStr → JSStr) (store : Option BilibiliCredential) :
    (env.checkResult = none →
      performCookieRefresh env decode store = (false, store)) ∧
    (∀ chk, env.checkResult = some chk → chk.refresh = true →
      getRefreshCsrf env.correspondHtml = none →
      performCookieRefresh env decode store = (false, store)) ∧
    (∀ chk rd, env.checkResult = some chk → chk.refresh = true →
      env.refreshResult = some rd → rd.code ≠ 0 →
      performCookieRefresh env decode store = (false, store)) ∧
    (∀ chk rd, env.checkResult = some chk → chk.refresh = true →
      env.refreshResult = some rd → rd.code = 0 →
      (jsFalsyStr (parseSetCookie decode rd.setCookie).1 = true ∨
        jsFalsyStr (parseSetCookie decode rd.setCookie).2.1 = true) →
      performCookieRefresh env decode store = (false, store)) := by
  refine ⟨?_, ?_, ?_, ?_⟩
  · intro hchk
    cases store with
    | none => rfl
    | some cred =>
      cases hrt : cred.refresh_token with
      | none => simp [performCookieRefresh, hrt]
      | some rt =>
        by_cases hrtE : rt = []
        · simp [performCookieRefresh, hrt, hrtE]
        · simp [performCookieRefresh, hrt, hrtE, hchk]
  · intro chk hchk hr hcsrf
    cases store with
    | none => rfl
    | some cred =>
      cases hrt : cred.refresh_token with
      | none => simp [performCookieRefresh, hrt]
      | some rt =>
        by_cases hrtE : rt = []
        · simp [performCookieRefresh, hrt, hrtE]
        · simp [performCookieRefresh, hrt, hrtE, hchk, hr, hcsrf]
  · intro chk rd hchk hr hrr hcode
    cases store with
    | none => rfl
    | some cred =>
      cases hrt : cred.refresh_token with
      | none => simp [performCookieRefresh, hrt]
      | some rt =>
        by_cases hrtE : rt = []
        · simp [performCookieRefresh, hrt, hrtE]
        · cases hcs : getRefreshCsrf env.correspondHtml with
          | none => simp [performCookieRefresh, hrt, hrtE, hchk, hr, hcs]
          | some cs => simp [performCookieRefresh, hrt, hrtE, hchk, hr, hcs, hrr, hcode]
  · intro chk rd hchk hr hrr hcode hbad
    cases store with
    | none => rfl
    | some cred =>
      cases hrt : cred.refresh_token with
      | none => simp [performCookieRefresh, hrt]
      | some rt =>
        by_cases hrtE : rt = []
        · simp [performCookieRefresh, hrt, hrtE]
        · cases hcs : getRefreshCsrf env.correspondHtml with
          | none => simp [performCookieRefresh, hrt, hrtE, hchk, hr, hcs]
          | some cs =>
            rcases hbad with hb | hb <;>
              simp [performCookieRefresh, hrt, hrtE, hchk, hr, hcs, hrr, hcode, hb]

/-- Claim C3 witness: the four failure modes at concrete oracles all leave
the concrete stored credential untouched. -/
theorem performCookieRefresh_failure_preserves_witness :
    (envR1.checkResult = none ∧
      performCookieRefresh envR1 id (some credW) = (false, some credW)) ∧
    (getRefreshCsrf envR2.correspondHtml = none ∧
      performCookieRefresh envR2 id (some credW) = (false, some credW)) ∧
    ((-352 : Int) ≠ 0 ∧
      performCookieRefresh envR3 id (some credW) = (false, some credW)) ∧
    (jsFalsyStr (parseSetCookie id (none : Option JSStr)).1 = true ∧
      performCookieRefresh envR4 id (some credW) = (false, some credW)) :=
  ⟨⟨rfl, (performCookieRefresh_failure_preserves envR1 id (some credW)).1 rfl⟩,
    ⟨by decide,
      (performCookieRefresh_failure_preserves envR2 id (some credW)).2.1
        ⟨true, 5⟩ rfl rfl (by decide)⟩,
    ⟨by decide,
      (performCookieRefresh_failure_preserves envR3 id (some credW)).2.2.1
        ⟨true, 5⟩ ⟨-352, ("risk").data, ("rt2").data, none⟩ rfl rfl rfl (by decide)⟩,
    ⟨by decide,
      (performCookieRefresh_failure_preserves envR4 id (some credW)).2.2.2
        ⟨true, 5⟩ ⟨0, [], ("rt2").data, none⟩ rfl rfl rfl rfl (Or.inl (by decide))⟩⟩

/-! ## C4: timed-out QR polls expire without a remote call -/

/-- Claim C4: when an active session exists whose age exceeds 180 seconds,
`pollQrCodeStatus` answers Expired and clears the session, and the result
is the same for every remote answer (the remote endpoint is never
consulted). -/
theorem pollQrCodeStatus_timeout (U : UrlEnv) (now : Nat)
    (remote : RemoteFetch QrPollData) (st : QrState) (k : Option JSStr) (s : QrSession)
    (hs : st.session = some s) (hkey : s.qrcode_key ≠ [])
    (htime : s.createTime + QRCODE_TIMEOUT < now) :
    pollQrCodeStatus U now remote st k =
      (⟨.expired, ("二维码已过期，请重新生成").data, none⟩, ⟨none, st.storedCredential⟩) := by
  have htoB : decide (now - s.createTime > QRCODE_TIMEOUT) = true := by
    simp only [decide_eq_true_eq]
    omega
  cases k with
  | none => simp [pollQrCodeStatus, hs, hkey, htoB]
  | some kk =>
    by_cases hkk : kk = []
    · simp [pollQrCodeStatus, hs, hkey, htoB, hkk]
    · simp [pollQrCodeStatus, hs, hkk, htoB]

/-- Claim C4 witness: a poll 181 seconds after creation expires and clears
the session even though the remote would report Waiting. -/
theorem pollQrCodeStatus_timeout_witness :
    stW.session = some sessW ∧ sessW.qrcode_key ≠ [] ∧
      sessW.createTime + QRCODE_TIMEOUT < 182000 ∧
      pollQrCodeStatus uW 182000 (.ok pollWaiting) stW none =
        (⟨.expired, ("二维码已过期，请重新生成").data, none⟩,
          ⟨none, stW.storedCredential⟩) :=
  ⟨rfl, by decide, by decide,
    pollQrCodeStatus_timeout uW 182000 (.ok pollWaiting) stW none sessW rfl
      (by decide) (by decide)⟩


/-! ## C8: credential-parse failure on a successful poll -/

/-- Claim C8 counterexample: a fresh session polled while the remote
answers the Succeeded code with an unparsable redirect URL yields status
Expired — not a status distinct from Expired as claimed. -/
theorem pollQrCodeStatus_parse_failure_counterexample :
    pollBadUrl.code = 0 ∧
      parseCredentialFromUrl uW 2000 pollBadUrl.url pollBadUrl.refresh_token = none ∧
      (pollQrCodeStatus uW 2000 (.ok pollBadUrl) stW none).1.status
        = QrCodeLoginStatus.expired := by
  refine ⟨rfl, ?_, ?_⟩ <;> rfl

/-- Claim C8 as amended: when a poll reaches the Succeeded remote code but
the credential cannot be parsed from the redirect URL, the result carries
the Expired status with the dedicated parse-failure message, and — unlike a
genuine expiry — the session is left in place. -/
theorem pollQrCodeStatus_parse_failure (U : UrlEnv) (now : Nat) (st : QrState)
    (k : Option JSStr) (s : QrSession) (pollData : QrPollData)
    (hs : st.session = some s) (hkey : s.qrcode_key ≠ [])
    (htime : now - s.createTime ≤ QRCODE_TIMEOUT)
    (hcode : pollData.code = 0)
    (hparse : parseCredentialFromUrl U now pollData.url pollData.refresh_token = none) :
    pollQrCodeStatus U now (.ok pollData) st k =
      (⟨.expired, ("解析登录凭据失败").data, none⟩, st) := by
  have htoB : decide (now - s.createTime > QRCODE_TIMEOUT) = false := by
    simp only [decide_eq_false_iff_not]
    omega
  cases k with
  | none => simp [pollQrCodeStatus, hs, hkey, htoB, hcode, hparse]
  | some kk =>
    by_cases hkk : kk = []
    · simp [pollQrCodeStatus, hs, hkey, htoB, hkk, hcode, hparse]
    · simp [pollQrCodeStatus, hs, hkk, htoB, hcode, hparse]

/-- Claim C8 (amended) witness: the concrete parse failure keeps the
session and reports the dedicated message under the Expired status. -/
theorem pollQrCodeStatus_parse_failure_witness :
    stW.session = some sessW ∧ pollBadUrl.code = 0 ∧
      pollQrCodeStatus uW 2000 (.ok pollBadUrl) stW none =
        (⟨.expired, ("解析登录凭据失败").data, none⟩, stW) :=
  ⟨rfl, rfl,
    pollQrCodeStatus_parse_failure uW 2000 stW none sessW pollBadUrl rfl
      (by decide) (by decide) rfl rfl⟩


/-! ## C7: acquisition failures and the size ceiling -/

/-- Claim C7 counterexample: with a one-megabyte ceiling, an audio payload
of 10485761 bytes and a muxed output of 5242880 bytes, the pipeline still
returns a file; only the video stream is ever size-checked, so the claim's
"any downloaded payload exceeds maxSizeMB yields no file" is false. -/
theorem downloadDashVideo_oversized_counterexample :
    envD1.audioBytes = some 10485761 ∧ 1 * 1048576 < 10485761 ∧
      envD1.mergedBytes = 5242880 ∧ 1 * 1048576 < 5242880 ∧
      downloadDashVideo envD1 1 = some 5242880 := by
  refine ⟨rfl, by norm_num, rfl, by norm_num, ?_⟩
  rfl

/-- Claim C7 as amended: the pipeline returns no file on a failed video
download, on a video payload exceeding the ceiling, on a failed audio
download and on a failed muxing invocation; the audio payload and the
muxed output are not size-checked. -/
theorem downloadDashVideo_failure (env : DownloadEnv) (maxSizeMB : Nat) :
    (env.videoBytes = none → downloadDashVideo env maxSizeMB = none) ∧
    (∀ n, env.videoBytes = some n → n > maxSizeMB * 1048576 →
      downloadDashVideo env maxSizeMB = none) ∧
    (env.audioBytes = none → downloadDashVideo env maxSizeMB = none) ∧
    (env.mergeOk = false → downloadDashVideo env maxSizeMB = none) := by
  refine ⟨?_, ?_, ?_, ?_⟩
  · intro h
    unfold downloadDashVideo
    split
    · rfl
    · rw [h]
      split
      · split
        · rfl
        · rfl
      · rfl
  · intro n h hgt
    unfold downloadDashVideo
    split
    · rfl
    · rw [h]
      split
      · split
        · rfl
        · split
          · rfl
          · simp_all
      · rfl
  · intro h
    unfold downloadDashVideo
    split
    · rfl
    · rw [h]
      split
      · split
        · rfl
        · split
          · rfl
          · split
            · rfl
            · rfl
      · rfl
  · intro h
    unfold downloadDashVideo
    split
    · rfl
    · split
      · split
        · rfl
        · split
          · rfl
          · split
            · rfl
            · split
              · rfl
              · simp_all
      · rfl

/-- Claim C7 (amended) witness: the four aborting conditions at concrete
oracles all yield no file. -/
theorem downloadDashVideo_failure_witness :
    (envD2.videoBytes = none ∧ downloadDashVideo envD2 1 = none) ∧
    (envD3.videoBytes = some 99999999 ∧ 99999999 > 1 * 1048576 ∧
      downloadDashVideo envD3 1 = none) ∧
    (envD4.audioBytes = none ∧ downloadDashVideo envD4 1 = none) ∧
    (envD5.mergeOk = false ∧ downloadDashVideo envD5 1 = none) :=
  ⟨⟨rfl, (downloadDashVideo_failure envD2 1).1 rfl⟩,
    ⟨rfl, by norm_num,
      (downloadDashVideo_failure envD3 1).2.1 99999999 rfl (by norm_num)⟩,
    ⟨rfl, (downloadDashVideo_failure envD4 1).2.2.1 rfl⟩,
    ⟨rfl, (downloadDashVideo_failure envD5 1).2.2.2 rfl⟩⟩


/-! ## C6: dedup cache TTL semantics and failed-delivery behaviour -/


theorem cacheGet_cacheSet (c : ParseCache) (k : JSStr) (v : Nat) :
    cacheGet (cacheSet c k v) k = some v := by
  rw [cacheSet]
  split
  · rename_i hsome
    induction c with
    | nil => simp [cacheGet] at hsome
    | cons e rest ih =>
      by_cases he : e.1 = k
      · simp [cacheGet, List.find?_cons, he]
      · simp only [List.map_cons, if_neg he]
        have hsome2 : (List.find? (fun e => e.1 = k) rest).isSome := by
          simpa [List.find?_cons, he] using hsome
        simpa [cacheGet, List.find?_cons, he] using ih hsome2
  · rename_i hnone
    induction c with
    | nil => simp [cacheGet, List.find?_cons]
    | cons e rest ih =>
      by_cases he : e.1 = k
      · exact absurd (by simp [List.find?_cons, he]) hnone
      · have hnone2 : ¬ (List.find? (fun e => e.1 = k) rest).isSome := by
          intro hs
          exact hnone (by simpa [List.find?_cons, he] using hs)
        simpa [cacheGet, List.find?_cons, he] using ih hnone2

theorem cacheSet_forall (c : ParseCache) (k : JSStr) (v : Nat) :
    ∀ e ∈ cacheSet c k v, e.1 = k → e.2 = v := by
  rw [cacheSet]
  split
  · intro e he hk
    rcases List.mem_map.mp he with ⟨e0, he0, heq⟩
    by_cases h0 : e0.1 = k
    · rw [if_pos h0] at heq
      rw [← heq]
    · rw [if_neg h0] at heq
      exact absurd (heq ▸ hk) h0
  · rename_i hnone
    intro e he hk
    rcases List.mem_append.mp he with hm | hm
    · exact absurd (List.find?_isSome.mpr ⟨e, hm, by simp [hk]⟩) hnone
    · rcases List.mem_singleton.mp hm with rfl
      rfl

theorem cacheGet_clean_of_forall (c : ParseCache) (k : JSStr) (v now : Nat)
    (hall : ∀ e ∈ c, e.1 = k → e.2 = v) (hget : cacheGet c k = some v)
    (hlive : ¬ now > v) :
    cacheGet (cleanExpiredCache c now) k = some v := by
  induction c with
  | nil => simp [cacheGet] at hget
  | cons e rest ih =>
    have hallrest : ∀ x ∈ rest, x.1 = k → x.2 = v :=
      fun x hx => hall x (List.mem_cons_of_mem e hx)
    by_cases he : e.1 = k
    · have hev : e.2 = v := hall e (List.mem_cons_self e rest) he
      have hsurv : ¬ now > e.2 := by rw [hev]; exact hlive
      rw [cleanExpiredCache, List.filter_cons]
      have hp : (decide ¬ now > e.2) = true := by simp [hsurv]
      rw [if_pos hp]
      simp [cacheGet, List.find?_cons, he, hev]
    · have hget2 : cacheGet rest k = some v := by
        simpa [cacheGet, List.find?_cons, he] using hget
      rw [cleanExpiredCache, List.filter_cons]
      by_cases hsurv : now > e.2
      · have hp : (decide ¬ now > e.2) = false := by simp [hsurv]
        rw [hp]
        simp only [Bool.false_eq_true, if_neg, not_false_eq_true]
        simpa [cleanExpiredCache] using ih hallrest hget2
      · have hp : (decide ¬ now > e.2) = true := by simp [hsurv]
        rw [if_pos hp]
        have := ih hallrest hget2
        simpa [cacheGet, cleanExpiredCache, List.find?_cons, he] using this

theorem cacheGet_cacheDelete (c : ParseCache) (k : JSStr) :
    cacheGet (cacheDelete c k) k = none := by
  induction c with
  | nil => rfl
  | cons e rest ih =>
    by_cases he : e.1 = k
    · simp only [cacheDelete, List.filter_cons, decide_not] at ih ⊢
      simp [he, ih]
    · simp only [cacheDelete, List.filter_cons, decide_not] at ih ⊢
      simp only [cacheGet, List.find?_cons] at ih ⊢
      simp [he, ih]

theorem effectiveTTLms_pos (t : Nat) : 0 < effectiveTTLms t := by
  rw [effectiveTTLms]
  split <;> omega

theorem cacheGet_addToParseCache (cache : ParseCache) (now ttl : Nat) (g v : JSStr) :
    cacheGet (addToParseCache cache now ttl g v) (parseKey g v)
      = some (now + effectiveTTLms ttl) := by
  rw [addToParseCache]
  split
  · exact cacheGet_clean_of_forall _ _ _ _
      (cacheSet_forall cache (parseKey g v) (now + effectiveTTLms ttl))
      (cacheGet_cacheSet cache (parseKey g v) (now + effectiveTTLms ttl))
      (by omega)
  · exact cacheGet_cacheSet cache (parseKey g v) (now + effectiveTTLms ttl)

theorem isInParseCache_false_stable (cache : ParseCache) (now : Nat) (g v : JSStr)
    (h : (isInParseCache cache now g v).1 = false) :
    (isInParseCache (isInParseCache cache now g v).2 now g v).1 = false := by
  cases hget : cacheGet cache (parseKey g v) with
  | none =>
    have h2 : (isInParseCache cache now g v).2 = cache := by
      rw [isInParseCache, hget]
    rw [h2]
    exact h
  | some e =>
    by_cases h0 : e = 0
    · have h2 : (isInParseCache cache now g v).2 = cache := by
        rw [isInParseCache, hget]
        simp [h0]
      rw [h2]
      exact h
    · by_cases hexp : now > e
      · have h2 : (isInParseCache cache now g v).2 = cacheDelete cache (parseKey g v) := by
          rw [isInParseCache, hget]
          simp [h0, hexp]
        rw [h2, isInParseCache, cacheGet_cacheDelete]
      · exfalso
        have h1 : (isInParseCache cache now g v).1 = true := by
          rw [isInParseCache, hget]
          simp [h0, hexp]
        rw [h1] at h
        simp at h

/-- Lookups inside the TTL window succeed, later ones fail. -/
theorem parseCache_ttl_window (cache : ParseCache) (now ttl : Nat) (g v : JSStr) (n2 : Nat) :
    (n2 ≤ now + effectiveTTLms ttl →
      (isInParseCache (addToParseCache cache now ttl g v) n2 g v).1 = true) ∧
    (now + effectiveTTLms ttl < n2 →
      (isInParseCache (addToParseCache cache now ttl g v) n2 g v).1 = false) := by
  have hget := cacheGet_addToParseCache cache now ttl g v
  have hpos := effectiveTTLms_pos ttl
  constructor
  · intro hle
    rw [isInParseCache, hget]
    have h0 : ¬ (now + effectiveTTLms ttl = 0) := by omega
    have hexp : ¬ (n2 > now + effectiveTTLms ttl) := by omega
    simp [h0, hexp]
  · intro hgt
    rw [isInParseCache, hget]
    have h0 : ¬ (now + effectiveTTLms ttl = 0) := by omega
    have hexp : n2 > now + effectiveTTLms ttl := by omega
    simp [h0, hexp]

/-- A failed forward delivery never inserts the dedup key. -/
theorem handleMessage_failed_send_aux (env : MessageEnv) (cache : ParseCache)
    (gid vid : JSStr) (hg : env.groupId = some gid) (hv : env.videoId = some vid)
    (hpos : 0 < env.parseCacheTTL.getD 300)
    (hatt : (handleMessage env cache).attemptedForward = true)
    (hng : (handleMessage env cache).forwardOk = false) :
    (handleMessage env cache).calledAdd = false ∧
      (isInParseCache (handleMessage env cache).cache env.now gid vid).1 = false := by
  by_cases h1 : env.enabled = true
  case neg =>
    have hres : handleMessage env cache = ⟨cache, false, false, false⟩ := by
      rw [handleMessage]; simp [h1]
    rw [hres] at hatt
    simp at hatt
  case pos =>
  by_cases h2 : env.isGroupMessage = true
  case neg =>
    have hres : handleMessage env cache = ⟨cache, false, false, false⟩ := by
      rw [handleMessage]; simp [h1, h2]
    rw [hres] at hatt
    simp at hatt
  case pos =>
  by_cases h3 : env.groupEnabled = true
  case neg =>
    have hres : handleMessage env cache = ⟨cache, false, false, false⟩ := by
      rw [handleMessage]; simp [h1, h2, hg, h3]
    rw [hres] at hatt
    simp at hatt
  case pos =>
  by_cases h4 : (env.miniappLinkFound = true ∨ env.containsLink = true)
  case neg =>
    have hres : handleMessage env cache = ⟨cache, false, false, false⟩ := by
      rw [handleMessage]; simp [h1, h2, hg, h3, h4]
    rw [hres] at hatt
    simp at hatt
  case pos =>
  by_cases h5 : (isInParseCache cache env.now gid vid).1 = true
  case pos =>
    have hres : handleMessage env cache =
        ⟨(isInParseCache cache env.now gid vid).2, false, false, false⟩ := by
      rw [handleMessage]; simp [h1, h2, hg, h3, h4, hv, hpos, h5]
    rw [hres] at hatt
    simp at hatt
  case neg =>
  replace h5 : (isInParseCache cache env.now gid vid).1 = false := by
    simpa using h5
  by_cases h6 : env.videoInfoFound = true
  case neg =>
    have hres : handleMessage env cache =
        ⟨(isInParseCache cache env.now gid vid).2, false, false, false⟩ := by
      rw [handleMessage]; simp [h1, h2, hg, h3, h4, hv, hpos, h5, h6]
    rw [hres] at hatt
    simp at hatt
  case pos =>
  by_cases h7 : env.sendForwardSuccess = true
  case pos =>
    have hres : handleMessage env cache =
        ⟨addToParseCache (isInParseCache cache env.now gid vid).2 env.now
            (env.parseCacheTTL.getD 0) gid vid, true, true, true⟩ := by
      rw [handleMessage]; simp [h1, h2, hg, h3, h4, hv, hpos, h5, h6, h7]
    rw [hres] at hng
    simp at hng
  case neg =>
    have hres : handleMessage env cache =
        ⟨(isInParseCache cache env.now gid vid).2, true, false, false⟩ := by
      rw [handleMessage]; simp [h1, h2, hg, h3, h4, hv, hpos, h5, h6, h7]
    rw [hres]
    exact ⟨rfl, isInParseCache_false_stable cache env.now gid vid h5⟩


/-- Claim C6: after `addToParseCache`, `isInParseCache` answers `true` for
every lookup within the configured TTL window and `false` for every lookup
after the TTL has elapsed; and a `handleMessage` run whose forward delivery
fails never calls `addToParseCache`, so the key is absent from the cache
afterwards. -/
theorem parseCache_spec :
    (∀ (cache : ParseCache) (now ttl : Nat) (g v : JSStr) (n2 : Nat),
      (n2 ≤ now + effectiveTTLms ttl →
        (isInParseCache (addToParseCache cache now ttl g v) n2 g v).1 = true) ∧
      (now + effectiveTTLms ttl < n2 →
        (isInParseCache (addToParseCache cache now ttl g v) n2 g v).1 = false)) ∧
    (∀ (env : MessageEnv) (cache : ParseCache) (gid vid : JSStr),
      env.groupId = some gid → env.videoId = some vid →
      0 < env.parseCacheTTL.getD 300 →
      (handleMessage env cache).attemptedForward = true →
      (handleMessage env cache).forwardOk = false →
      (handleMessage env cache).calledAdd = false ∧
        (isInParseCache (handleMessage env cache).cache env.now gid vid).1 = false) :=
  ⟨parseCache_ttl_window, handleMessage_failed_send_aux⟩

/-- Claim C6 witness: the spec's key is suppressed 1 second after
insertion, no longer suppressed 301 seconds after insertion, and a
concrete failed delivery leaves the key uncached. -/
theorem parseCache_spec_witness :
    ((1000 : Nat) ≤ 0 + effectiveTTLms 300 ∧
      (isInParseCache (addToParseCache [] 0 300 gW bvW) 1000 gW bvW).1 = true) ∧
    (0 + effectiveTTLms 300 < 301000 ∧
      (isInParseCache (addToParseCache [] 0 300 gW bvW) 301000 gW bvW).1 = false) ∧
    ((handleMessage envM []).attemptedForward = true ∧
      (handleMessage envM []).forwardOk = false ∧
      (handleMessage envM []).calledAdd = false ∧
        (isInParseCache (handleMessage envM []).cache envM.now gW bvW).1 = false) :=
  ⟨⟨by decide, (parseCache_spec.1 [] 0 300 gW bvW 1000).1 (by decide)⟩,
    ⟨by decide, (parseCache_spec.1 [] 0 300 gW bvW 301000).2 (by decide)⟩,
    by decide, by decide,
    parseCache_spec.2 envM [] gW bvW rfl rfl (by decide) (by decide) (by decide)⟩


/-! ## C9: canonical-id extraction -/
theorem matchLitCI_of_map (lit' lit rest : JSStr) (h : lit'.map lowerChar = lit) :
    matchLitCI lit (lit' ++ rest) = some rest := by
  subst h
  induction lit' with
  | nil => rfl
  | cons c cs ih =>
    show matchLitCI (lowerChar c :: cs.map lowerChar) (c :: (cs ++ rest)) = some rest
    rw [matchLitCI, if_pos rfl]
    exact ih

theorem matchAlnumN_append (body : JSStr) :
    ∀ n rest, body.length = n → body.all isAlnumChar = true →
      matchAlnumN n (body ++ rest) = some (body, rest) := by
  induction body with
  | nil =>
    intro n rest hlen _
    subst hlen
    rfl
  | cons c cs ih =>
    intro n rest hlen hall
    subst hlen
    have hc : isAlnumChar c = true := by
      have := hall
      simp [List.all_cons] at this
      exact this.1
    have hcs : cs.all isAlnumChar = true := by
      have := hall
      simp [List.all_cons] at this
      exact (List.all_eq_true.mpr (fun x hx => by
        exact this.2 x hx))
    show matchAlnumN (cs.length + 1) (c :: (cs ++ rest)) = some (c :: cs, rest)
    rw [matchAlnumN, if_pos hc, ih cs.length rest rfl hcs]
    rfl

theorem bvMatchAt_anchor (body suf : JSStr) (hlen : body.length = 10)
    (halnum : body.all isAlnumChar = true)
    (hsuf : ∀ c ∈ suf.take 1, isWordChar c = false) :
    bvMatchAt ('B' :: 'V' :: (body ++ suf)) = some ('B' :: 'V' :: body) := by
  rw [bvMatchAt, if_pos (by decide), matchAlnumN_append body 10 suf hlen halnum]
  cases suf with
  | nil => rfl
  | cons n t =>
    have hn : isWordChar n = false := hsuf n (by simp)
    simp [hn]

theorem findUrlMatch_of_matchUrlAt (l : JSStr) (g : JSStr) (hne : l ≠ [])
    (hm : matchUrlAt l = some g) : findUrlMatch l = some g := by
  cases l with
  | nil => exact absurd rfl hne
  | cons c cs => rw [findUrlMatch, hm]


/-- When the full-URL pattern matches nowhere inside a prefix, the
leftmost-match scan passes over that prefix. -/
theorem findUrlMatch_append_of_no_match (pre : JSStr) :
    ∀ R : JSStr, (∀ k, k < pre.length → matchUrlAt ((pre ++ R).drop k) = none) →
      findUrlMatch (pre ++ R) = findUrlMatch R := by
  induction pre with
  | nil => intro R _; rfl
  | cons a l ih =>
    intro R h
    have h0 : matchUrlAt (a :: (l ++ R)) = none := by
      have := h 0 (by simp)
      simpa using this
    have hshift : ∀ k, k < l.length → matchUrlAt ((l ++ R).drop k) = none := by
      intro k hk
      have := h (k + 1) (by simp; omega)
      simpa using this
    show findUrlMatch (a :: (l ++ R)) = findUrlMatch R
    rw [findUrlMatch, h0]
    exact ih R hshift

/-- The full-URL pattern anchored at any of its six concrete forms
(`http`/`https` scheme, optional `www.` or `m.` subdomain) around a valid
id captures exactly that id. -/
theorem matchUrlAt_anchor (scheme sub body suf : JSStr)
    (hsch : scheme = ("http://").data ∨ scheme = ("https://").data)
    (hsub : sub = [] ∨ sub = ("www.").data ∨ sub = ("m.").data)
    (hlen : body.length = 10) (halnum : body.all isAlnumChar = true) :
    matchUrlAt (scheme ++ (sub ++ ((("bilibili.com/video/").data)
      ++ ('B' :: 'V' :: (body ++ suf))))) = some ('B' :: 'V' :: body) := by
  have hbv : matchLitCI ['b', 'v'] ('B' :: 'V' :: (body ++ suf)) = some (body ++ suf) :=
    matchLitCI_of_map ['B', 'V'] ['b', 'v'] (body ++ suf) (by decide)
  have haln := matchAlnumN_append body 10 suf hlen halnum
  have hid : matchIdGroup ('B' :: 'V' :: (body ++ suf)) = some ('B' :: 'V' :: body) := by
    simp only [matchIdGroup, hbv, haln, Option.map_some]
    rfl
  have hhost : matchLitCI (("bilibili.com/video/").data)
      ((("bilibili.com/video/").data) ++ ('B' :: 'V' :: (body ++ suf)))
      = some ('B' :: 'V' :: (body ++ suf)) :=
    matchLitCI_of_map _ _ _ (by decide)
  rcases hsch with rfl | rfl <;> rcases hsub with rfl | rfl | rfl
  · -- http://, no subdomain
    simp only [List.nil_append]
    have h1 : matchLitCI (("https://").data) (("http://").data
        ++ ((("bilibili.com/video/").data) ++ ('B' :: 'V' :: (body ++ suf)))) = none := rfl
    have h2 : matchLitCI (("http://").data) (("http://").data
        ++ ((("bilibili.com/video/").data) ++ ('B' :: 'V' :: (body ++ suf))))
        = some ((("bilibili.com/video/").data) ++ ('B' :: 'V' :: (body ++ suf))) :=
      matchLitCI_of_map _ _ _ (by decide)
    have h3 : matchLitCI (("www.").data)
        ((("bilibili.com/video/").data) ++ ('B' :: 'V' :: (body ++ suf))) = none := rfl
    have h4 : matchLitCI (("m.").data)
        ((("bilibili.com/video/").data) ++ ('B' :: 'V' :: (body ++ suf))) = none := rfl
    simp only [matchUrlAt, h1, h2, h3, h4, hhost, hid]
  · -- http://, www.
    have h1 : matchLitCI (("https://").data) (("http://").data
        ++ ((("www.").data) ++ ((("bilibili.com/video/").data)
          ++ ('B' :: 'V' :: (body ++ suf))))) = none := rfl
    have h2 : matchLitCI (("http://").data) (("http://").data
        ++ ((("www.").data) ++ ((("bilibili.com/video/").data)
          ++ ('B' :: 'V' :: (body ++ suf)))))
        = some ((("www.").data) ++ ((("bilibili.com/video/").data)
          ++ ('B' :: 'V' :: (body ++ suf)))) :=
      matchLitCI_of_map _ _ _ (by decide)
    have h3 : matchLitCI (("www.").data) ((("www.").data)
        ++ ((("bilibili.com/video/").data) ++ ('B' :: 'V' :: (body ++ suf))))
        = some ((("bilibili.com/video/").data) ++ ('B' :: 'V' :: (body ++ suf))) :=
      matchLitCI_of_map _ _ _ (by decide)
    simp only [matchUrlAt, h1, h2, h3, hhost, hid]
  · -- http://, m.
    have h1 : matchLitCI (("https://").data) (("http://").data
        ++ ((("m.").data) ++ ((("bilibili.com/video/").data)
          ++ ('B' :: 'V' :: (body ++ suf))))) = none := rfl
    have h2 : matchLitCI (("http://").data) (("http://").data
        ++ ((("m.").data) ++ ((("bilibili.com/video/").data)
          ++ ('B' :: 'V' :: (body ++ suf)))))
        = some ((("m.").data) ++ ((("bilibili.com/video/").data)
          ++ ('B' :: 'V' :: (body ++ suf)))) :=
      matchLitCI_of_map _ _ _ (by decide)
    have h3 : matchLitCI (("www.").data) ((("m.").data)
        ++ ((("bilibili.com/video/").data) ++ ('B' :: 'V' :: (body ++ suf)))) = none := rfl
    have h4 : matchLitCI (("m.").data) ((("m.").data)
        ++ ((("bilibili.com/video/").data) ++ ('B' :: 'V' :: (body ++ suf))))
        = some ((("bilibili.com/video/").data) ++ ('B' :: 'V' :: (body ++ suf))) :=
      matchLitCI_of_map _ _ _ (by decide)
    simp only [matchUrlAt, h1, h2, h3, h4, hhost, hid]
  · -- https://, no subdomain
    simp only [List.nil_append]
    have h1 : matchLitCI (("https://").data) (("https://").data
        ++ ((("bilibili.com/video/").data) ++ ('B' :: 'V' :: (body ++ suf))))
        = some ((("bilibili.com/video/").data) ++ ('B' :: 'V' :: (body ++ suf))) :=
      matchLitCI_of_map _ _ _ (by decide)
    have h3 : matchLitCI (("www.").data)
        ((("bilibili.com/video/").data) ++ ('B' :: 'V' :: (body ++ suf))) = none := rfl
    have h4 : matchLitCI (("m.").data)
        ((("bilibili.com/video/").data) ++ ('B' :: 'V' :: (body ++ suf))) = none := rfl
    simp only [matchUrlAt, h1, h3, h4, hhost, hid]
  · -- https://, www.
    have h1 : matchLitCI (("https://").data) (("https://").data
        ++ ((("www.").data) ++ ((("bilibili.com/video/").data)
          ++ ('B' :: 'V' :: (body ++ suf)))))
        = some ((("www.").data) ++ ((("bilibili.com/video/").data)
          ++ ('B' :: 'V' :: (body ++ suf)))) :=
      matchLitCI_of_map _ _ _ (by decide)
    have h3 : matchLitCI (("www.").data) ((("www.").data)
        ++ ((("bilibili.com/video/").data) ++ ('B' :: 'V' :: (body ++ suf))))
        = some ((("bilibili.com/video/").data) ++ ('B' :: 'V' :: (body ++ suf))) :=
      matchLitCI_of_map _ _ _ (by decide)
    simp only [matchUrlAt, h1, h3, hhost, hid]
  · -- https://, m.
    have h1 : matchLitCI (("https://").data) (("https://").data
        ++ ((("m.").data) ++ ((("bilibili.com/video/").data)
          ++ ('B' :: 'V' :: (body ++ suf)))))
        = some ((("m.").data) ++ ((("bilibili.com/video/").data)
          ++ ('B' :: 'V' :: (body ++ suf)))) :=
      matchLitCI_of_map _ _ _ (by decide)
    have h3 : matchLitCI (("www.").data) ((("m.").data)
        ++ ((("bilibili.com/video/").data) ++ ('B' :: 'V' :: (body ++ suf)))) = none := rfl
    have h4 : matchLitCI (("m.").data) ((("m.").data)
        ++ ((("bilibili.com/video/").data) ++ ('B' :: 'V' :: (body ++ suf))))
        = some ((("bilibili.com/video/").data) ++ ('B' :: 'V' :: (body ++ suf))) :=
      matchLitCI_of_map _ _ _ (by decide)
    simp only [matchUrlAt, h1, h3, h4, hhost, hid]

/-- When the bare-id pattern matches nowhere anchored inside a prefix,
the boundary-tracking scan passes over that prefix, arriving with the
word-character state of the prefix's last character. -/
theorem findBvMatch_append_of_no_match (pre : JSStr) :
    ∀ (rest : JSStr) (b : Bool),
      (∀ k, k < pre.length → bvMatchAt ((pre ++ rest).drop k) = none) →
      findBvMatch b (pre ++ rest)
        = findBvMatch ((pre.getLast?).elim b isWordChar) rest := by
  induction pre with
  | nil => intro rest b _; rfl
  | cons a l ih =>
    intro rest b h
    have h0 : bvMatchAt (a :: (l ++ rest)) = none := by
      have := h 0 (by simp)
      simpa using this
    have hshift : ∀ k, k < l.length → bvMatchAt ((l ++ rest).drop k) = none := by
      intro k hk
      have := h (k + 1) (by simp; omega)
      simpa using this
    have hcond : (if b then none else bvMatchAt (a :: (l ++ rest))) = none := by
      cases b <;> simp [h0]
    show findBvMatch b (a :: (l ++ rest)) = _
    rw [findBvMatch, hcond]
    cases l with
    | nil => simp [List.getLast?]
    | cons x xs =>
      rw [ih rest (isWordChar a) hshift, List.getLast?_cons_cons]
      obtain ⟨c, hc⟩ : ∃ c, (x :: xs).getLast? = some c := by
        cases hxs : (x :: xs).getLast? with
        | none => simp [List.getLast?] at hxs
        | some c => exact ⟨c, rfl⟩
      rw [hc]
      rfl


/-- Claim C9: a text whose embedded full bilibili video URL (either
scheme, any of the three subdomain forms) is the first full-URL match
yields exactly the embedded canonical id; and a text containing the bare
canonical-id pattern — delimited by word boundaries, preceded by no other
anchored bare-id occurrence and containing no full-URL match — yields that
same canonical id. -/
theorem extractBvid_spec :
    (∀ scheme sub pre body suf : JSStr,
      (scheme = ("http://").data ∨ scheme = ("https://").data) →
      (sub = [] ∨ sub = ("www.").data ∨ sub = ("m.").data) →
      body.length = 10 → body.all isAlnumChar = true →
      (∀ k, k < pre.length →
        matchUrlAt ((pre ++ (scheme ++ (sub ++ ((("bilibili.com/video/").data)
          ++ ('B' :: 'V' :: (body ++ suf)))))).drop k) = none) →
      extractBvid (pre ++ (scheme ++ (sub ++ ((("bilibili.com/video/").data)
        ++ ('B' :: 'V' :: (body ++ suf)))))) = some ('B' :: 'V' :: body)) ∧
    (∀ pre body suf : JSStr,
      body.length = 10 → body.all isAlnumChar = true →
      (∀ c, pre.getLast? = some c → isWordChar c = false) →
      (∀ c ∈ suf.take 1, isWordChar c = false) →
      (∀ k, k < pre.length →
        bvMatchAt ((pre ++ ('B' :: 'V' :: (body ++ suf))).drop k) = none) →
      findUrlMatch (pre ++ ('B' :: 'V' :: (body ++ suf))) = none →
      extractBvid (pre ++ ('B' :: 'V' :: (body ++ suf))) = some ('B' :: 'V' :: body)) := by
  constructor
  · intro scheme sub pre body suf hsch hsub hlen halnum hnom
    have hanchor := matchUrlAt_anchor scheme sub body suf hsch hsub hlen halnum
    have hne : scheme ++ (sub ++ ((("bilibili.com/video/").data)
        ++ ('B' :: 'V' :: (body ++ suf)))) ≠ [] := by
      rcases hsch with rfl | rfl <;> simp
    have hfu := findUrlMatch_of_matchUrlAt _ _ hne hanchor
    have hfull : findUrlMatch (pre ++ (scheme ++ (sub ++ ((("bilibili.com/video/").data)
        ++ ('B' :: 'V' :: (body ++ suf)))))) = some ('B' :: 'V' :: body) := by
      rw [findUrlMatch_append_of_no_match pre _ hnom, hfu]
    simp only [extractBvid, hfull]
    have hb : lowerChar 'B' = 'b' := by decide
    have hv2 : lowerChar 'V' = 'v' := by decide
    simp [hb, hv2]
  · intro pre body suf hlen halnum hlast hsuf hnob hnourl
    have hbv0 : bvMatchAt ('B' :: 'V' :: (body ++ suf)) = some ('B' :: 'V' :: body) :=
      bvMatchAt_anchor body suf hlen halnum hsuf
    have hprevW : ((pre.getLast?).elim false isWordChar) = false := by
      cases hpl : pre.getLast? with
      | none => rfl
      | some c => simpa using hlast c hpl
    have hfind : findBvMatch false (pre ++ ('B' :: 'V' :: (body ++ suf)))
        = some ('B' :: 'V' :: body) := by
      rw [findBvMatch_append_of_no_match pre _ false hnob, hprevW, findBvMatch]
      simp [hbv0]
    simp only [extractBvid, hnourl, hfind]
    rfl

/-- Claim C9 witness: the id inside an `http://m.` URL after a prefix
that itself contains the letters `http`, and the spec-style bare text
`Check out BV1xx411c7mD`. -/
theorem extractBvid_spec_witness :
    ((("http://").data = ("http://").data ∨ ("http://").data = ("https://").data) ∧
      extractBvid ((("see http docs: ").data) ++ ((("http://").data
        ++ ((("m.").data) ++ ((("bilibili.com/video/").data)
          ++ ('B' :: 'V' :: ((("1xx411c7mD").data) ++ ("?p=1").data)))))))
        = some ('B' :: 'V' :: ("1xx411c7mD").data)) ∧
    (extractBvid ((("Check out ").data) ++ ('B' :: 'V' :: ((("1xx411c7mD").data) ++ [])))
      = some ('B' :: 'V' :: ("1xx411c7mD").data)) :=
  ⟨⟨Or.inl rfl,
    extractBvid_spec.1 ("http://").data ("m.").data ("see http docs: ").data
      ("1xx411c7mD").data ("?p=1").data (Or.inl rfl) (Or.inr (Or.inr rfl))
      (by decide) (by decide) (by decide)⟩,
    extractBvid_spec.2 ("Check out ").data ("1xx411c7mD").data []
      (by decide) (by decide)
      (by
        intro c hc
        have h2 : (("Check out ").data).getLast? = some ' ' := rfl
        rw [h2, Option.some.injEq] at hc
        rw [← hc]
        decide)
      (by decide) (by decide) (by decide)⟩

end Bili
